import Mathlib

/-!
Verification of the autofocus-overlay removal engine
(`src/image_processing.rs`, `impl ImageProcessor`).

Shallow embedding conventions:

* A raster (`image::RgbImage`) is `Img`: width, height and a pixel function.
  `Img.get?`/`Img.put?` model `get_pixel`/`put_pixel`, which panic on
  out-of-range coordinates: `none` models the panic.
* `u32` coordinate arithmetic is modelled over `Int`/`Nat`.  Where the source
  can wrap (`height - 1`, `width - 1` on `u32`), the wrap is modelled
  explicitly (`u32pred`).  Casts `u32 -> i32` are modelled as exact
  (faithful for dimensions below 2^31; a camera raster is far below that),
  and the `(x as i32 + dx) as u32` re-cast of a negative value yields a huge
  coordinate that can never be a detected pixel, which membership tests model
  by a sign check.
* `(width as f32 * 0.3) as u32` and `(height as f32 * 0.6) as u32`:
  0.3f32 = 5033165/2^24 and 0.6f32 = 5033165/2^23 exactly, so the cast is
  modelled as the floor of the exact rational product (`maxX`, `minY`).
* The `f32` ray arithmetic in `sample_far_neighbors` (integer base point plus
  unit direction times an integer distance up to 24) is exact for dimensions
  below 2^24 and is modelled over `Int`.
* The `f64` weights of `bilateral_sample` (`exp(-dist/10) * exp(-color/50)`)
  are transcendental and are modelled by an abstract rational weight bundle
  `Weights`; no claim below depends on their numeric values, only on their
  positivity.  Counterexamples instantiate a concrete positive bundle.
* `HashSet<(u32,u32)>` iteration order is unspecified (and randomly seeded in
  Rust).  The detected set is carried as an insertion-ordered duplicate-free
  list, and every place the source materialises a snapshot of a set
  (`.iter().collect()`, `.into_iter().collect()`) is parameterised by a
  reordering function (`Orders`); `Orders.Lawful` says each reordering is a
  permutation.  `ordersId` is the canonical iteration order.
-/

set_option maxRecDepth 100000

namespace AFB

structure Rgb where
  r : Nat
  g : Nat
  b : Nat
deriving DecidableEq, Repr

abbrev Coord := Nat × Nat

structure Img where
  width : Nat
  height : Nat
  pix : Nat → Nat → Rgb

/-- `get_pixel`: panics (`none`) out of range. -/
def Img.get? (img : Img) (x y : Int) : Option Rgb :=
  if 0 ≤ x ∧ 0 ≤ y ∧ x < (img.width : Int) ∧ y < (img.height : Int) then
    some (img.pix x.toNat y.toNat)
  else none

/-- `put_pixel`: panics (`none`) out of range. -/
def Img.put? (img : Img) (x y : Nat) (c : Rgb) : Option Img :=
  if x < img.width ∧ y < img.height then
    some ⟨img.width, img.height, fun a b => if a = x ∧ b = y then c else img.pix a b⟩
  else none

/-- `(width as f32 * 0.3) as u32`; 0.3f32 = 5033165/2^24. -/
def maxX (w : Nat) : Nat := 5033165 * w / 2 ^ 24

/-- `(height as f32 * 0.6) as u32`; 0.6f32 = 5033165/2^23. -/
def minY (h : Nat) : Nat := 5033165 * h / 2 ^ 23

/-- `n - 1` on `u32` (wraps at zero). -/
def u32pred (n : Nat) : Nat := (n + 4294967295) % 4294967296

/-- `HashSet::insert` on an insertion-ordered duplicate-free list. -/
def insertC (s : List Coord) (c : Coord) : List Coord := if c ∈ s then s else s ++ [c]

/-- The integer interval `a..=b` as a list. -/
def offs (a b : Int) : List Int := (List.range (b - a + 1).toNat).map fun (n : Nat) => a + (n : Int)

/-- Offsets `(dx, dy)` of the square window of radius `r`, in the source's
scan order (`dy` outer, `dx` inner). -/
def windowOffs (r : Int) : List (Int × Int) :=
  (offs (-r) r).flatMap fun dy => (offs (-r) r).map fun dx => (dx, dy)

/-- `(p[0] as u32 + p[1] as u32 + p[2] as u32) / 3`. -/
def lum (p : Rgb) : Nat := (p.r + p.g + p.b) / 3

/-- The 8 neighbour offsets `(dx, dy)` scanned by `is_high_contrast_edge`
(`dy` outer, `dx` inner, skipping `(0,0)`). -/
def neighborOffs : List (Int × Int) :=
  [(-1, -1), (0, -1), (1, -1), (-1, 0), (1, 0), (-1, 1), (0, 1), (1, 1)]

/-- `is_high_contrast_edge`. -/
def is_high_contrast_edge (img : Img) (x y : Nat) : Option Bool := do
  let center ← img.get? x y
  let cl := lum center
  let md ← neighborOffs.foldlM
    (fun (md : Nat) d => do
      let nb ← img.get? ((x : Int) + d.1) ((y : Int) + d.2)
      let nl := lum nb
      let diff := if cl > nl then cl - nl else nl - cl
      pure (if diff > md then diff else md))
    0
  pure (decide (50 < md) && decide (180 < cl))

/-- Detection pass 1: bright pixels in the search region. -/
def pass1 (img : Img) : Option (List Coord) :=
  (List.range' (minY img.height) (img.height - minY img.height)).foldlM
    (fun acc y =>
      (List.range (maxX img.width)).foldlM
        (fun acc x => do
          let p ← img.get? (x : Nat) (y : Nat)
          pure (if 235 < p.r ∧ 235 < p.g ∧ 235 < p.b then insertC acc (x, y) else acc))
        acc)
    []

/-- One row of the pass-2 edge scan, `x` in `1..(xcount+1)`. -/
def edgeRow (img : Img) (xcount y : Nat) (acc : List Coord) : Option (List Coord) :=
  (List.range' 1 xcount).foldlM
    (fun acc x => do
      let e ← is_high_contrast_edge img x y
      pure (if e then insertC acc (x, y) else acc))
    acc

/-- The pass-2 row loop, written with explicit fuel so that the wrapped
`height - 1` bound of the source (`u32` underflow when `height = 0`) is
modelled without materialising a 2^32-element range. -/
def edgeScan (img : Img) (xcount : Nat) : Nat → Nat → List Coord → Option (List Coord)
  | 0, _, acc => some acc
  | fuel + 1, y, acc => do
      let acc' ← edgeRow img xcount y acc
      edgeScan img xcount fuel (y + 1) acc'

/-- Detection pass 2: high-contrast edge pixels
(`y` in `min_y.max(1)..height-1`, `x` in `1..max_x.min(width-1)`). -/
def pass2 (img : Img) : Option (List Coord) :=
  let yStart := max (minY img.height) 1
  let yEnd := u32pred img.height
  let xEnd := min (maxX img.width) (u32pred img.width)
  edgeScan img (xEnd - 1) (yEnd - yStart) yStart []

/-- The 5x5 proximity test of the combine loop after pass 2.  The source casts `x+dx` through `u32`
without a sign check; a negative value wraps to at least 2^32 - 2, which is
never a member of the set, so the wrap is modelled by the sign test. -/
def near (s : List Coord) (x y : Nat) : Bool :=
  (windowOffs 2).any fun d =>
    let nx := (x : Int) + d.1
    let ny := (y : Int) + d.2
    decide (0 ≤ nx) && decide (0 ≤ ny) && decide ((nx.toNat, ny.toNat) ∈ s)

/-- The combine loop after pass 2: merge edge pixels near already-detected
pixels.  Note the source inserts into `detected_pixels` while testing later
edge pixels against it, so the result depends on the iteration order
`edges`. -/
def pass3 (edges : List Coord) (s0 : List Coord) : List Coord :=
  edges.foldl (fun s c => if near s c.1 c.2 then insertC s c else s) s0

/-- One step of the aggressive-expansion pass (the source's "Pass 3",
between the proximity merge and the directional expansion): around one
detected pixel of a frozen snapshot, every pixel of the 5x5 window that
lies inside the search region (`nx < max_x`, `min_y <= ny`, clipped to the
raster) and is brighter than 200 on some channel is inserted.  The body
only inserts and never reads the live set. -/
def pass3aStep (img : Img) (s : List Coord) (c : Coord) : List Coord :=
  (windowOffs 2).foldl
    (fun s d =>
      let nx := (c.1 : Int) + d.1
      let ny := (c.2 : Int) + d.2
      if 0 ≤ nx ∧ 0 ≤ ny ∧ nx < (maxX img.width : Int) ∧ (minY img.height : Int) ≤ ny ∧
          nx < (img.width : Int) ∧ ny < (img.height : Int) then
        let p := img.pix nx.toNat ny.toNat
        if 200 < p.r ∨ 200 < p.g ∨ 200 < p.b then insertC s (nx.toNat, ny.toNat) else s
      else s)
    s

/-- One step of detection pass 4 (directional line expansion); reads the
live set `s`. -/
def pass4Step (w h mx : Nat) (s : List Coord) (c : Coord) : List Coord :=
  let x := c.1
  let y := c.2
  let isH := (0 < x ∧ (x - 1, y) ∈ s) ∨ (x < u32pred w ∧ (x + 1, y) ∈ s)
  let isV := (0 < y ∧ (x, y - 1) ∈ s) ∨ (y < u32pred h ∧ (x, y + 1) ∈ s)
  let s1 :=
    if isH then
      (offs (-8) 8).foldl
        (fun s dy =>
          let ny := (y : Int) + dy
          if 0 ≤ ny ∧ ny < (h : Int) then insertC s (x, ny.toNat) else s)
        s
    else s
  if isV then
    (offs (-4) 4).foldl
      (fun s dx =>
        let nx := (x : Int) + dx
        if 0 ≤ nx ∧ nx < min ((mx : Int) + 5) (w : Int) then insertC s (nx.toNat, y) else s)
      s1
  else s1

/-- The pass-5 upward scan: first `dy` in `1..=20` whose pixel straight above
is bright on some channel; reads panic (`none`) out of range. -/
def scanUp (img : Img) (x y : Nat) : List Nat → Option (Option Nat)
  | [] => some none
  | dy :: rest =>
    if 0 ≤ (y : Int) - (dy : Int) then do
      let p ← img.get? (x : Nat) ((y : Int) - (dy : Int))
      if 200 < p.r ∨ 200 < p.g ∨ 200 < p.b then pure (some ((y : Int) - (dy : Int)).toNat)
      else scanUp img x y rest
    else scanUp img x y rest

/-- One step of detection pass 5 (upward edge completion). -/
def pass5Step (img : Img) (s : List Coord) (c : Coord) : Option (List Coord) := do
  let hit ← scanUp img c.1 c.2 ((List.range 20).map (· + 1))
  match hit with
  | some ny => pure ((List.range' ny (c.2 + 1 - ny)).foldl (fun s fy => insertC s (c.1, fy)) s)
  | none => pure s

/-- One step of detection pass 6 (corner fill); reads the live set `s`.
`x - 1`, `y - 1` are `saturating_sub` in the source, i.e. `Nat` subtraction. -/
def pass6Step (img : Img) (s : List Coord) (c : Coord) : List Coord :=
  let x := c.1
  let y := c.2
  let hasH := (x - 1, y) ∈ s ∨ (x + 1, y) ∈ s
  let hasV := (x, y - 1) ∈ s ∨ (x, y + 1) ∈ s
  if hasH ∧ hasV then
    (windowOffs 6).foldl
      (fun s d =>
        let nx := (x : Int) + d.1
        let ny := (y : Int) + d.2
        if 0 ≤ nx ∧ 0 ≤ ny ∧ nx < (img.width : Int) ∧ ny < (img.height : Int) then
          let p := img.pix nx.toNat ny.toNat
          if 180 < p.r ∨ 180 < p.g ∨ 180 < p.b then insertC s (nx.toNat, ny.toNat) else s
        else s)
      s
  else s

/-- The iteration orders used for every snapshot the source materialises from
a `HashSet` (whose order is unspecified). -/
structure Orders where
  oE : List Coord → List Coord
  o3 : List Coord → List Coord
  o4 : List Coord → List Coord
  o5 : List Coord → List Coord
  o6 : List Coord → List Coord
  oOut : List Coord → List Coord

/-- Each reordering is a permutation (what any `HashSet` iteration yields). -/
def Orders.Lawful (o : Orders) : Prop :=
  (∀ l, List.Perm (o.oE l) l) ∧ (∀ l, List.Perm (o.o3 l) l) ∧
    (∀ l, List.Perm (o.o4 l) l) ∧ (∀ l, List.Perm (o.o5 l) l) ∧
    (∀ l, List.Perm (o.o6 l) l) ∧ (∀ l, List.Perm (o.oOut l) l)

/-- The canonical (insertion-order) iteration. -/
def ordersId : Orders := ⟨id, id, id, id, id, id⟩

/-- `detect_autofocus_box`: the seven cumulative detection phases of the
source (bright pixels, edge scan, proximity merge, aggressive 5x5
expansion, directional expansion, upward edge completion, corner fill). -/
def detect_autofocus_box (img : Img) (o : Orders) : Option (List Coord) := do
  let s1 ← pass1 img
  let edges ← pass2 img
  let s3 := pass3 (o.oE edges) s1
  let s3a := (o.o3 s3).foldl (pass3aStep img) s3
  let s4 := (o.o4 s3a).foldl (pass4Step img.width img.height (maxX img.width)) s3a
  let s5 ← (o.o5 s4).foldlM (pass5Step img) s4
  let s6 := (o.o6 s5).foldl (pass6Step img) s5
  pure (o.oOut s6)

/-- Abstract model of the two `f64` weight factors of `bilateral_sample`
(`exp(-dist/10)` and `exp(-color_distance/50)`); see the header note. -/
structure Weights where
  spatial : Int → Int → ℚ
  color : Rgb → Rgb → ℚ

def Weights.Pos (wt : Weights) : Prop :=
  (∀ dx dy, 0 < wt.spatial dx dy) ∧ ∀ a b, 0 < wt.color a b

/-- The constant-weight instance used by concrete counterexamples (every
scene below is arranged so that all included samples are equal, making the
weighted average independent of the weight values). -/
def weightsOne : Weights := ⟨fun _ _ => 1, fun _ _ => 1⟩

/-- Stable insertion into a list sorted by `key`: the new element goes in
front of the first element of equal or larger key. -/
def insertLe {α : Type} (key : α → Nat) (a : α) : List α → List α
  | [] => [a]
  | b :: l => if key a ≤ key b then a :: b :: l else b :: insertLe key a l

/-- Stable sort by a `Nat` key (insertion sort).  Models Rust's stable
`Vec::sort_by_key`: two stable sorts under the same key agree, and for the
`sort_unstable` calls on plain channel values any correct sort agrees. -/
def sortByKey {α : Type} (key : α → Nat) : List α → List α
  | [] => []
  | a :: l => insertLe key a (sortByKey key l)

/-- `median_pixel`: per-channel median (each channel sorted independently). -/
def median_pixel (ps : List Rgb) : Rgb :=
  if ps.length = 0 then ⟨128, 128, 128⟩
  else
    let rs := sortByKey (fun v => v) (ps.map Rgb.r)
    let gs := sortByKey (fun v => v) (ps.map Rgb.g)
    let bs := sortByKey (fun v => v) (ps.map Rgb.b)
    let mid := ps.length / 2
    ⟨rs.getD mid 0, gs.getD mid 0, bs.getD mid 0⟩

/-- `average_pixels`: per-channel mean with `u32` truncating division. -/
def average_pixels (ps : List Rgb) : Rgb :=
  if ps.length = 0 then ⟨128, 128, 128⟩
  else
    ⟨(ps.map Rgb.r).sum / ps.length, (ps.map Rgb.g).sum / ps.length,
      (ps.map Rgb.b).sum / ps.length⟩

/-- The 8 ray directions of `sample_far_neighbors`, in source order. -/
def directions : List (Int × Int) :=
  [(-1, -1), (0, -1), (1, -1), (-1, 0), (1, 0), (-1, 1), (0, 1), (1, 1)]

/-- One ray of `sample_far_neighbors`: the first distance whose pixel is in
bounds, outside the mask and dark on all channels (`break`), else keep
scanning outward. -/
def rayFirst (img : Img) (x y : Nat) (mask : List Coord) (d : Int × Int) :
    List Nat → Option Rgb
  | [] => none
  | dist :: rest =>
    let nx := (x : Int) + d.1 * dist
    let ny := (y : Int) + d.2 * dist
    if 0 ≤ nx ∧ 0 ≤ ny ∧ nx < (img.width : Int) ∧ ny < (img.height : Int) then
      if (nx.toNat, ny.toNat) ∈ mask then rayFirst img x y mask d rest
      else
        let p := img.pix nx.toNat ny.toNat
        if p.r < 200 ∧ p.g < 200 ∧ p.b < 200 then some p
        else rayFirst img x y mask d rest
    else rayFirst img x y mask d rest

/-- The ray distances scanned by the source: `for dist in 12..25`,
i.e. 12 through 24. -/
def rayDists : List Nat := (List.range 13).map (· + 12)

/-- `sample_far_neighbors`. -/
def sample_far_neighbors (img : Img) (x y : Nat) (mask : List Coord) : Option Rgb :=
  let samples := directions.filterMap fun d => rayFirst img x y mask d rayDists
  if 4 ≤ samples.length then some (median_pixel samples)
  else if samples.length ≠ 0 then some (average_pixels samples)
  else none

/-- `.round().min(255.0) as u8` applied to a nonnegative rational. -/
def q2u8 (q : ℚ) : Nat := min (round q).toNat 255

/-- The window accumulation of `bilateral_sample` (weighted sums and total
weight), given the value `center` of the centre pixel. -/
def bilateral_core (wt : Weights) (img : Img) (x y : Nat) (center : Rgb)
    (boxSet : List Coord) : Option Rgb :=
  let acc := (windowOffs 15).foldl
    (fun (acc : ℚ × ℚ × ℚ × ℚ) (d : Int × Int) =>
      if d.1.natAbs < 5 ∧ d.2.natAbs < 5 then acc
      else
        let nx := (x : Int) + d.1
        let ny := (y : Int) + d.2
        if 0 ≤ nx ∧ 0 ≤ ny ∧ nx < (img.width : Int) ∧ ny < (img.height : Int) then
          if (nx.toNat, ny.toNat) ∈ boxSet then acc
          else
            let p := img.pix nx.toNat ny.toNat
            if 210 < p.r ∨ 210 < p.g ∨ 210 < p.b then acc
            else
              let w := wt.spatial d.1 d.2 * wt.color center p
              (acc.1 + p.r * w, acc.2.1 + p.g * w, acc.2.2.1 + p.b * w, acc.2.2.2 + w)
        else acc)
    (0, 0, 0, 0)
  if 0 < acc.2.2.2 then
    some ⟨q2u8 (acc.1 / acc.2.2.2), q2u8 (acc.2.1 / acc.2.2.2), q2u8 (acc.2.2.1 / acc.2.2.2)⟩
  else none

/-- `bilateral_sample`; the unguarded `get_pixel(x, y)` of the centre value
is the outer `Option`. -/
def bilateral_sample (wt : Weights) (img : Img) (x y : Nat) (boxSet : List Coord) :
    Option (Option Rgb) := do
  let center ← img.get? (x : Nat) (y : Nat)
  pure (bilateral_core wt img x y center boxSet)

/-- `p[0] as u32 + p[1] as u32 + p[2] as u32`, the sort key of
`aggressive_cleanup`. -/
def lumSum (p : Rgb) : Nat := p.r + p.g + p.b

/-- `aggressive_cleanup`: 41x41 window, skipping the inner region
`|dx| < 8 && |dy| < 8` (a 15x15 sub-window), keeping pixels dark on all
three channels; 25th percentile by brightness (stable sort) when at least
10 samples, per-channel median when some, none otherwise. -/
def aggressive_cleanup (img : Img) (x y : Nat) : Option Rgb :=
  let samples := (windowOffs 20).filterMap fun d =>
    if d.1.natAbs < 8 ∧ d.2.natAbs < 8 then none
    else
      let nx := (x : Int) + d.1
      let ny := (y : Int) + d.2
      if 0 ≤ nx ∧ 0 ≤ ny ∧ nx < (img.width : Int) ∧ ny < (img.height : Int) then
        let p := img.pix nx.toNat ny.toNat
        if p.r < 180 ∧ p.g < 180 ∧ p.b < 180 then some p else none
      else none
  if 10 ≤ samples.length then
    let idx := samples.length * 25 / 100
    let sorted := sortByKey lumSum samples
    some (sorted.getD idx ⟨0, 0, 0⟩)
  else if samples.length ≠ 0 then some (median_pixel samples)
  else none

/-- The offsets of the exclusion-mask dilation (`dy` in `-10..=10` outer,
`dx` in `-7..=7` inner). -/
def maskOffs : List (Int × Int) :=
  (offs (-10) 10).flatMap fun dy => (offs (-7) 7).map fun dx => (dx, dy)

/-- The exclusion-mask construction inlined at the top of
`multi_pass_inpaint` (the spec's `build_exclusion`): dilation of the
candidate list by `y +- 10`, `x +- 7`, clipped to bounds.  It takes only the
raster dimensions and the candidate coordinates - no pixel values. -/
def build_exclusion (w h : Nat) (boxList : List Coord) : List Coord :=
  boxList.foldl
    (fun m c =>
      maskOffs.foldl
        (fun m d =>
          let nx := (c.1 : Int) + d.1
          let ny := (c.2 : Int) + d.2
          if 0 ≤ nx ∧ 0 ≤ ny ∧ nx < (w : Int) ∧ ny < (h : Int) then
            insertC m (nx.toNat, ny.toNat)
          else m)
        m)
    []

/-- The loop body of inpainting pass 1. -/
def stage1Step (original : Img) (mask : List Coord) (acc : Img) (c : Coord) : Option Img :=
  match sample_far_neighbors original c.1 c.2 mask with
  | some col => acc.put? c.1 c.2 col
  | none => pure acc

/-- Inpainting pass 1 (Stage A): samples are drawn from `original`, the
frozen pre-inpaint raster. -/
def stage1 (original : Img) (mask : List Coord) (boxList : List Coord) (img : Img) :
    Option Img :=
  boxList.foldlM (stage1Step original mask) img

/-- The loop body of inpainting pass 2. -/
def stage2Step (wt : Weights) (intermediate : Img) (boxSet : List Coord) (acc : Img)
    (c : Coord) : Option Img := do
  let res ← bilateral_sample wt intermediate c.1 c.2 boxSet
  match res with
  | some col => acc.put? c.1 c.2 col
  | none => pure acc

/-- Inpainting pass 2 (Stage B): samples are drawn from `intermediate`, the
frozen Stage-A output. -/
def stage2 (wt : Weights) (intermediate : Img) (boxSet boxList : List Coord) (img : Img) :
    Option Img :=
  boxList.foldlM (stage2Step wt intermediate boxSet) img

/-- The loop body of inpainting pass 3. -/
def stage3Step (intermediate : Img) (acc : Img) (c : Coord) : Option Img := do
  let p ← acc.get? (c.1 : Nat) (c.2 : Nat)
  if 220 < p.r ∨ 220 < p.g ∨ 220 < p.b then
    match aggressive_cleanup intermediate c.1 c.2 with
    | some col => acc.put? c.1 c.2 col
    | none => pure acc
  else pure acc

/-- Inpainting pass 3 (Stage C): the brightness trigger reads the live
raster at the pixel itself; samples are drawn from `intermediate`, which the
source binds to the Stage-A output (`let intermediate = img.clone()` before
pass 2). -/
def stage3 (intermediate : Img) (boxList : List Coord) (img : Img) : Option Img :=
  boxList.foldlM (stage3Step intermediate) img

/-- `multi_pass_inpaint`. -/
def multi_pass_inpaint (wt : Weights) (img : Img) (boxList : List Coord) : Option Img := do
  let mask := build_exclusion img.width img.height boxList
  let img1 ← stage1 img mask boxList img
  let img2 ← stage2 wt img1 boxList boxList img1
  stage3 img1 boxList img2

/-- The reconstruction pipeline as the specification describes Stage C's
input buffer: identical to `multi_pass_inpaint` except that Stage C draws
its samples from Stage B's output (`img2`) instead of Stage A's. -/
def multi_pass_inpaint_specC5 (wt : Weights) (img : Img) (boxList : List Coord) :
    Option Img := do
  let mask := build_exclusion img.width img.height boxList
  let img1 ← stage1 img mask boxList img
  let img2 ← stage2 wt img1 boxList boxList img1
  stage3 img2 boxList img2

/-- `remove_autofocus_boxes` (the Linux build). -/
def remove_autofocus_boxes (wt : Weights) (o : Orders) (img : Img) : Option Img := do
  let bp ← detect_autofocus_box img o
  if bp.length = 0 then pure img
  else multi_pass_inpaint wt img bp

/-- The non-Linux stub of `remove_autofocus_boxes`: `image.clone()`. -/
def remove_autofocus_boxes_non_linux (img : Img) : Img := img

/-! Definitions that follow the specification's words, for comparison with
the source embedding (refinement checks). -/

/-- Stage C sampling as the spec words it: the samples of the 41x41 window
centred on the pixel, excluding an inner square sub-window (side
`2*innerRad + 1`), keeping only in-bounds pixels with all three channels
below 180; selection as in the spec (25th percentile by luminance if at
least 10 samples, per-channel median if some, nothing otherwise).
`innerRad = 8` gives the spec's 17x17 exclusion; `innerRad = 7` gives the
15x15 exclusion the source actually implements. -/
def aggressive_cleanup_spec (img : Img) (x y : Nat) (innerRad : Nat) : Option Rgb :=
  let samples := ((windowOffs 20).filter fun d =>
      ¬(d.1.natAbs ≤ innerRad ∧ d.2.natAbs ≤ innerRad) ∧
        0 ≤ (x : Int) + d.1 ∧ 0 ≤ (y : Int) + d.2 ∧
        (x : Int) + d.1 < (img.width : Int) ∧ (y : Int) + d.2 < (img.height : Int) ∧
        (img.pix ((x : Int) + d.1).toNat ((y : Int) + d.2).toNat).r < 180 ∧
        (img.pix ((x : Int) + d.1).toNat ((y : Int) + d.2).toNat).g < 180 ∧
        (img.pix ((x : Int) + d.1).toNat ((y : Int) + d.2).toNat).b < 180).map
    fun d => img.pix ((x : Int) + d.1).toNat ((y : Int) + d.2).toNat
  if 10 ≤ samples.length then
    let idx := samples.length * 25 / 100
    let sorted := sortByKey lumSum samples
    some (sorted.getD idx ⟨0, 0, 0⟩)
  else if samples.length ≠ 0 then some (median_pixel samples)
  else none

/-- One ray of Stage A as the spec words it: the first distance in `dists`
whose pixel is inside raster bounds, outside the exclusion mask and has all
three channels below 200. -/
def raySpec (img : Img) (x y : Nat) (mask : List Coord) (d : Int × Int)
    (dists : List Nat) : Option Rgb :=
  (dists.find? fun (dist : Nat) =>
      decide (0 ≤ (x : Int) + d.1 * (dist : Int) ∧ 0 ≤ (y : Int) + d.2 * (dist : Int) ∧
        (x : Int) + d.1 * (dist : Int) < (img.width : Int) ∧
        (y : Int) + d.2 * (dist : Int) < (img.height : Int) ∧
        ((((x : Int) + d.1 * (dist : Int)).toNat,
          ((y : Int) + d.2 * (dist : Int)).toNat) : Coord) ∉ mask ∧
        (img.pix ((x : Int) + d.1 * (dist : Int)).toNat
          ((y : Int) + d.2 * (dist : Int)).toNat).r < 200 ∧
        (img.pix ((x : Int) + d.1 * (dist : Int)).toNat
          ((y : Int) + d.2 * (dist : Int)).toNat).g < 200 ∧
        (img.pix ((x : Int) + d.1 * (dist : Int)).toNat
          ((y : Int) + d.2 * (dist : Int)).toNat).b < 200)).map
    fun (dist : Nat) =>
      img.pix ((x : Int) + d.1 * (dist : Int)).toNat ((y : Int) + d.2 * (dist : Int)).toNat

/-- Stage A sampling as the spec words it, scanning the given list of
distances outward. -/
def sample_far_spec (img : Img) (x y : Nat) (mask : List Coord) (dists : List Nat) :
    Option Rgb :=
  let samples := directions.filterMap fun d => raySpec img x y mask d dists
  if 4 ≤ samples.length then some (median_pixel samples)
  else if samples.length ≠ 0 then some (average_pixels samples)
  else none

/-- The distances 12 through 25 inclusive: the claim's reading of
"starting at distance 12 and scanning outward to distance 25". -/
def rayDists25 : List Nat := (List.range 14).map (· + 12)

/-! Concrete rasters used by counterexamples, failing inputs and witnesses. -/

/-- 20x20 raster: a bright pixel at (1,12); contrast-edge pixels at (3,12)
and (5,12) of value 200; black elsewhere.  The search region is
`x < maxX 20 = 6`, `y >= minY 20 = 12`, so pass 1 detects exactly (1,12) and
pass 2 finds the edge pixels (1,12), (3,12), (5,12). -/
def imgOrd : Img :=
  ⟨20, 20, fun x y =>
    if x = 1 ∧ y = 12 then ⟨255, 255, 255⟩
    else if x = 3 ∧ y = 12 then ⟨200, 200, 200⟩
    else if x = 5 ∧ y = 12 then ⟨200, 200, 200⟩
    else ⟨0, 0, 0⟩⟩

/-- Iterate the combine loop's edge snapshot in reverse; every other
snapshot in canonical order.  A legitimate `HashSet` iteration order. -/
def ordersRev : Orders := ⟨List.reverse, id, id, id, id, id⟩

/-- A 7x0 raster (`width = 7`, `height = 0`): the failing input for the
zero-dimension claim. -/
def imgZero : Img := ⟨7, 0, fun _ _ => ⟨0, 0, 0⟩⟩

/-- 17x1 raster, all bright except a dark pixel at (16,0), which sits at
offset `dx = 8` from (8,0): inside the source's sampling ring (the source
skips only `|dx| < 8 && |dy| < 8`), outside the spec's 17x17 exclusion. -/
def imgRing : Img :=
  ⟨17, 1, fun x _ => if x = 16 then ⟨100, 100, 100⟩ else ⟨255, 255, 255⟩⟩

/-- 17x1 all-bright raster (Stage-B output for the Stage-C witness). -/
def imgBright : Img := ⟨17, 1, fun _ _ => ⟨255, 255, 255⟩⟩

/-- 26x1 raster, all bright except a dark pixel at (25,0) — exactly at ray
distance 25 from (0,0) in direction (1,0). -/
def imgRay : Img :=
  ⟨26, 1, fun x _ => if x = 25 then ⟨100, 100, 100⟩ else ⟨255, 255, 255⟩⟩

/-- 19x1 raster distinguishing Stage C's sampling buffer: all bright except
the candidate (12,0) (dark, value 100) and a lone mid pixel (18,0) (value
200, the only Stage-B sample for (12,0)).  With candidates (0,0) and (12,0):
Stage A changes nothing (every ray hits masked, bright or out-of-range
pixels), Stage B rewrites (12,0) to 200, so (12,0) is a dark Stage-C sample
for the still-bright (0,0) in the Stage-A buffer but not in the Stage-B
buffer. -/
def imgBuf : Img :=
  ⟨19, 1, fun x _ =>
    if x = 12 then ⟨100, 100, 100⟩
    else if x = 18 then ⟨200, 200, 200⟩
    else ⟨255, 255, 255⟩⟩

/-- The candidate list for the Stage-C buffer scene. -/
def boxBuf : List Coord := [(0, 0), (12, 0)]

/-- 5x5 uniform mid-gray raster: no pixel of the search region is bright. -/
def imgGray : Img := ⟨5, 5, fun _ _ => ⟨128, 128, 128⟩⟩

/-- 10x10 raster with a single bright pixel (1,8) inside the search region
(`maxX 10 = 3`, `minY 10 = 6`); black elsewhere. -/
def imgSpot : Img :=
  ⟨10, 10, fun x y => if x = 1 ∧ y = 8 then ⟨255, 255, 255⟩ else ⟨0, 0, 0⟩⟩

/-- 17x1 all-bright raster with two candidate pixels, for the
order-independence witness. -/
def boxPair : List Coord := [(8, 0), (9, 0)]

/-! ### Supporting lemmas -/

theorem ordersId_lawful : Orders.Lawful ordersId :=
  ⟨fun l => List.Perm.refl l, fun l => List.Perm.refl l, fun l => List.Perm.refl l,
    fun l => List.Perm.refl l, fun l => List.Perm.refl l, fun l => List.Perm.refl l⟩

theorem weightsOne_pos : Weights.Pos weightsOne :=
  ⟨fun _ _ => one_pos, fun _ _ => one_pos⟩

theorem maxX_le (w : Nat) : maxX w ≤ w := by
  have h : 5033165 * w ≤ 2 ^ 24 * w := Nat.mul_le_mul_right w (by norm_num)
  calc maxX w ≤ 2 ^ 24 * w / 2 ^ 24 := Nat.div_le_div_right h
    _ = w := Nat.mul_div_cancel_left w (by norm_num)

theorem minY_le (h : Nat) : minY h ≤ h := by
  have hm : 5033165 * h ≤ 2 ^ 23 * h := Nat.mul_le_mul_right h (by norm_num)
  calc minY h ≤ 2 ^ 23 * h / 2 ^ 23 := Nat.div_le_div_right hm
    _ = h := Nat.mul_div_cancel_left h (by norm_num)

theorem u32pred_eq {n : Nat} (h0 : 0 < n) (h32 : n < 4294967296) : u32pred n = n - 1 := by
  unfold u32pred
  have : n + 4294967295 = (n - 1) + 1 * 4294967296 := by omega
  rw [this, Nat.add_mul_mod_self_right]
  exact Nat.mod_eq_of_lt (by omega)

theorem insertC_mem (s : List Coord) (c z : Coord) : z ∈ insertC s c ↔ z ∈ s ∨ z = c := by
  unfold insertC
  split
  · constructor
    · exact fun h => Or.inl h
    · rintro (h | rfl)
      · exact h
      · assumption
  · simp [List.mem_append]

theorem offs_mem (a b x : Int) : x ∈ offs a b ↔ a ≤ x ∧ x ≤ b := by
  unfold offs
  simp only [List.mem_map, List.mem_range]
  constructor
  · rintro ⟨i, hi, rfl⟩
    omega
  · rintro ⟨h1, h2⟩
    exact ⟨(x - a).toNat, by omega, by omega⟩

theorem maskOffs_mem (d : Int × Int) :
    d ∈ maskOffs ↔ -7 ≤ d.1 ∧ d.1 ≤ 7 ∧ -10 ≤ d.2 ∧ d.2 ≤ 10 := by
  unfold maskOffs
  simp only [List.mem_flatMap, List.mem_map]
  constructor
  · rintro ⟨dy, hdy, dx, hdx, rfl⟩
    rw [offs_mem] at hdy hdx
    exact ⟨hdx.1, hdx.2, hdy.1, hdy.2⟩
  · rintro ⟨h1, h2, h3, h4⟩
    exact ⟨d.2, (offs_mem _ _ _).mpr ⟨h3, h4⟩, d.1, (offs_mem _ _ _).mpr ⟨h1, h2⟩, rfl⟩

theorem foldlM_opt_ind {α σ : Type} (P : σ → Prop) (step : σ → α → Option σ) :
    ∀ (l : List α), (∀ t a t', a ∈ l → P t → step t a = some t' → P t') →
      ∀ s s', List.foldlM step s l = some s' → P s → P s' := by
  intro l
  induction l with
  | nil =>
    intro _ s s' h hs
    simp only [List.foldlM_nil] at h
    cases h
    exact hs
  | cons a l ih =>
    intro hstep s s' h hs
    rw [List.foldlM_cons] at h
    rcases Option.bind_eq_some.mp h with ⟨t, hstep_eq, hrest⟩
    exact ih (fun u b u' hb => hstep u b u' (List.mem_cons_of_mem _ hb)) t s' hrest
      (hstep s a t (List.mem_cons_self _ _) hs hstep_eq)

theorem foldlM_opt_total {α σ : Type} (P : σ → Prop) (step : σ → α → Option σ) :
    ∀ (l : List α), (∀ t a, a ∈ l → P t → ∃ t', step t a = some t' ∧ P t') →
      ∀ s, P s → ∃ s', List.foldlM step s l = some s' ∧ P s' := by
  intro l
  induction l with
  | nil =>
    intro _ s hs
    exact ⟨s, by simp [List.foldlM_nil], hs⟩
  | cons a l ih =>
    intro hstep s hs
    rcases hstep s a (List.mem_cons_self _ _) hs with ⟨t, hst, hPt⟩
    rcases ih (fun u b hb => hstep u b (List.mem_cons_of_mem _ hb)) t hPt with ⟨s', hs', hPs'⟩
    refine ⟨s', ?_, hPs'⟩
    rw [List.foldlM_cons, hst]
    exact hs'

theorem foldl_ind {α σ : Type} (P : σ → Prop) (step : σ → α → σ) :
    ∀ (l : List α), (∀ t a, a ∈ l → P t → P (step t a)) → ∀ s, P s → P (l.foldl step s) := by
  intro l
  induction l with
  | nil => intro _ s hs; exact hs
  | cons a l ih =>
    intro hstep s hs
    rw [List.foldl_cons]
    exact ih (fun u b hb => hstep u b (List.mem_cons_of_mem _ hb)) _
      (hstep s a (List.mem_cons_self _ _) hs)

theorem foldl_congr_mem {α σ : Type} (l : List α) (f g : σ → α → σ)
    (h : ∀ s a, a ∈ l → f s a = g s a) : ∀ s, l.foldl f s = l.foldl g s := by
  induction l with
  | nil => intro s; rfl
  | cons a l ih =>
    intro s
    rw [List.foldl_cons, List.foldl_cons, h s a (List.mem_cons_self _ _)]
    exact ih (fun u b hb => h u b (List.mem_cons_of_mem _ hb)) _

theorem foldl_addset_mem {α : Type} (l : List α) (step : List Coord → α → List Coord)
    (cond : α → Coord → Prop)
    (hstep : ∀ m a z, a ∈ l → (z ∈ step m a ↔ z ∈ m ∨ cond a z)) :
    ∀ m z, z ∈ l.foldl step m ↔ z ∈ m ∨ ∃ a ∈ l, cond a z := by
  induction l with
  | nil => intro m z; simp
  | cons a l ih =>
    intro m z
    rw [List.foldl_cons,
      ih (fun u b w hb => hstep u b w (List.mem_cons_of_mem _ hb)),
      hstep m a z (List.mem_cons_self _ _)]
    constructor
    · rintro ((h | h) | ⟨b, hb, h⟩)
      · exact Or.inl h
      · exact Or.inr ⟨a, List.mem_cons_self _ _, h⟩
      · exact Or.inr ⟨b, List.mem_cons_of_mem _ hb, h⟩
    · rintro (h | ⟨b, hb, h⟩)
      · exact Or.inl (Or.inl h)
      · rcases List.mem_cons.mp hb with rfl | hb
        · exact Or.inl (Or.inr h)
        · exact Or.inr ⟨b, hb, h⟩

theorem Img.ext' {a b : Img} (hw : a.width = b.width) (hh : a.height = b.height)
    (hp : ∀ p q, a.pix p q = b.pix p q) : a = b := by
  cases a
  cases b
  simp only at hw hh hp
  subst hw
  subst hh
  have : ∀ p, (fun p q => hp p q) p = (fun p q => hp p q) p := fun _ => rfl
  congr 1
  funext p q
  exact hp p q

theorem get?_some {img : Img} {x y : Int} {p : Rgb} (h : img.get? x y = some p) :
    0 ≤ x ∧ 0 ≤ y ∧ x < (img.width : Int) ∧ y < (img.height : Int) ∧
      p = img.pix x.toNat y.toNat := by
  unfold Img.get? at h
  split at h
  · cases h
    rename_i hc
    exact ⟨hc.1, hc.2.1, hc.2.2.1, hc.2.2.2, rfl⟩
  · cases h

theorem get?_of_lt {img : Img} {x y : Nat} (hx : x < img.width) (hy : y < img.height) :
    img.get? (x : Nat) (y : Nat) = some (img.pix x y) := by
  unfold Img.get?
  rw [if_pos]
  · simp
  · refine ⟨by positivity, by positivity, ?_, ?_⟩ <;> exact_mod_cast ‹_›

theorem put?_some {img : Img} {x y : Nat} {c : Rgb} {img' : Img}
    (h : Img.put? img x y c = some img') :
    img'.width = img.width ∧ img'.height = img.height ∧ img'.pix x y = c ∧
      ∀ p q, ¬(p = x ∧ q = y) → img'.pix p q = img.pix p q := by
  unfold Img.put? at h
  split at h
  · cases h
    refine ⟨rfl, rfl, by simp, ?_⟩
    intro p q hpq
    simp only [if_neg hpq]
  · cases h

theorem put?_of_lt {img : Img} {x y : Nat} (c : Rgb) (hx : x < img.width)
    (hy : y < img.height) : ∃ img', Img.put? img x y c = some img' := by
  unfold Img.put?
  exact ⟨_, if_pos ⟨hx, hy⟩⟩

/-- Each loop body of inpainting pass 1 writes only its own pixel. -/
theorem stage1Step_frame {original : Img} {mask : List Coord} {acc : Img} {c : Coord}
    {acc' : Img} (h : stage1Step original mask acc c = some acc') :
    acc'.width = acc.width ∧ acc'.height = acc.height ∧
      ∀ p q, ¬(p = c.1 ∧ q = c.2) → acc'.pix p q = acc.pix p q := by
  unfold stage1Step at h
  cases hs : sample_far_neighbors original c.1 c.2 mask with
  | some col =>
    rw [hs] at h
    rcases put?_some h with ⟨hw, hh, _, hrest⟩
    exact ⟨hw, hh, hrest⟩
  | none =>
    rw [hs] at h
    cases h
    exact ⟨rfl, rfl, fun _ _ _ => rfl⟩

/-- Each loop body of inpainting pass 2 writes only its own pixel. -/
theorem stage2Step_frame {wt : Weights} {inter : Img} {bs : List Coord} {acc : Img}
    {c : Coord} {acc' : Img} (h : stage2Step wt inter bs acc c = some acc') :
    acc'.width = acc.width ∧ acc'.height = acc.height ∧
      ∀ p q, ¬(p = c.1 ∧ q = c.2) → acc'.pix p q = acc.pix p q := by
  unfold stage2Step at h
  rcases Option.bind_eq_some.mp h with ⟨res, _, h2⟩
  cases res with
  | some col =>
    rcases put?_some h2 with ⟨hw, hh, _, hrest⟩
    exact ⟨hw, hh, hrest⟩
  | none =>
    cases h2
    exact ⟨rfl, rfl, fun _ _ _ => rfl⟩

/-- Each loop body of inpainting pass 3 writes only its own pixel. -/
theorem stage3Step_frame {inter : Img} {acc : Img} {c : Coord} {acc' : Img}
    (h : stage3Step inter acc c = some acc') :
    acc'.width = acc.width ∧ acc'.height = acc.height ∧
      ∀ p q, ¬(p = c.1 ∧ q = c.2) → acc'.pix p q = acc.pix p q := by
  unfold stage3Step at h
  rcases Option.bind_eq_some.mp h with ⟨p, _, h2⟩
  by_cases htrig : 220 < p.r ∨ 220 < p.g ∨ 220 < p.b
  · rw [if_pos htrig] at h2
    cases hc : aggressive_cleanup inter c.1 c.2 with
    | some col =>
      rw [hc] at h2
      rcases put?_some h2 with ⟨hw, hh, _, hrest⟩
      exact ⟨hw, hh, hrest⟩
    | none =>
      rw [hc] at h2
      cases h2
      exact ⟨rfl, rfl, fun _ _ _ => rfl⟩
  · rw [if_neg htrig] at h2
    cases h2
    exact ⟨rfl, rfl, fun _ _ _ => rfl⟩

/-- A fold of per-pixel writers leaves every coordinate outside the iterated
list untouched and preserves the dimensions. -/
theorem fold_frame {step : Img → Coord → Option Img}
    (hw : ∀ acc c acc', step acc c = some acc' →
      acc'.width = acc.width ∧ acc'.height = acc.height ∧
        ∀ p q, ¬(p = c.1 ∧ q = c.2) → acc'.pix p q = acc.pix p q) :
    ∀ (l : List Coord) (img out : Img), List.foldlM step img l = some out →
      out.width = img.width ∧ out.height = img.height ∧
        ∀ p q, (p, q) ∉ l → out.pix p q = img.pix p q := by
  intro l
  induction l with
  | nil =>
    intro img out h
    simp only [List.foldlM_nil] at h
    cases h
    exact ⟨rfl, rfl, fun _ _ _ => rfl⟩
  | cons c rest ih =>
    intro img out h
    rw [List.foldlM_cons] at h
    rcases Option.bind_eq_some.mp h with ⟨img1, h1, h2⟩
    rcases hw img c img1 h1 with ⟨hw1, hh1, hp1⟩
    rcases ih img1 out h2 with ⟨hw2, hh2, hp2⟩
    refine ⟨hw2.trans hw1, hh2.trans hh1, ?_⟩
    intro p q hpq
    rw [hp2 p q fun hm => hpq (List.mem_cons_of_mem _ hm)]
    refine hp1 p q ?_
    rintro ⟨rfl, rfl⟩
    exact hpq (by simp)

/-- Pointwise description of inpainting pass 1: the fold realises, at every
coordinate, the per-pixel function of the frozen buffers, independently of
the iteration order. -/
theorem stage1_pix (original : Img) (mask : List Coord) :
    ∀ (l : List Coord) (img out : Img), stage1 original mask l img = some out →
      ∀ p q : Nat, out.pix p q =
        match (if (p, q) ∈ l then sample_far_neighbors original p q mask else none) with
        | some col => col
        | none => img.pix p q := by
  intro l
  induction l with
  | nil =>
    intro img out h p q
    unfold stage1 at h
    simp only [List.foldlM_nil] at h
    cases h
    simp
  | cons c rest ih =>
    intro img out h p q
    unfold stage1 at h
    rw [List.foldlM_cons] at h
    rcases Option.bind_eq_some.mp h with ⟨img1, h1, h2⟩
    have hrest : stage1 original mask rest img1 = some out := h2
    by_cases hr : (p, q) ∈ rest
    · have hthis := ih img1 out hrest p q
      rw [if_pos hr] at hthis
      rw [if_pos (List.mem_cons_of_mem _ hr)]
      cases hs : sample_far_neighbors original p q mask with
      | some col => rw [hthis, hs]
      | none =>
        rw [hthis, hs]
        by_cases hc : c = ((p, q) : Coord)
        · subst hc
          unfold stage1Step at h1
          rw [hs] at h1
          cases h1
          rfl
        · exact (stage1Step_frame h1).2.2 p q fun hpq =>
            hc (by obtain ⟨h1, h2⟩ := hpq; subst h1; subst h2; rfl)
    · rcases fold_frame (fun acc a acc' hstep => stage1Step_frame hstep) rest img1 out hrest
        with ⟨_, _, hframe⟩
      have hout : out.pix p q = img1.pix p q := hframe p q hr
      by_cases hc : c = ((p, q) : Coord)
      · subst hc
        rw [if_pos (List.mem_cons_self _ _)]
        unfold stage1Step at h1
        cases hs : sample_far_neighbors original p q mask with
        | some col =>
          rw [hs] at h1
          rcases put?_some h1 with ⟨_, _, hwrite, _⟩
          rw [hout, hwrite]
        | none =>
          rw [hs] at h1
          cases h1
          rw [hout]
      · have hnotmem : ((p, q) : Coord) ∉ c :: rest := by
          intro hm
          rcases List.mem_cons.mp hm with hm | hm
          · exact hc hm.symm
          · exact hr hm
        rw [if_neg hnotmem]
        rw [hout]
        exact (stage1Step_frame h1).2.2 p q fun hpq =>
          hc (by obtain ⟨h1, h2⟩ := hpq; subst h1; subst h2; rfl)

/-- A successful `bilateral_sample` returns the window accumulation at the
centre pixel's value. -/
theorem bilateral_sample_some {wt : Weights} {inter : Img} {x y : Nat} {bs : List Coord}
    {res : Option Rgb} (h : bilateral_sample wt inter x y bs = some res) :
    res = bilateral_core wt inter x y (inter.pix x y) bs := by
  unfold bilateral_sample at h
  rcases Option.bind_eq_some.mp h with ⟨center, hc, h2⟩
  cases h2
  rcases get?_some hc with ⟨-, -, -, -, hcv⟩
  rw [hcv]
  simp

/-- Pointwise description of inpainting pass 2. -/
theorem stage2_pix (wt : Weights) (inter : Img) (bs : List Coord) :
    ∀ (l : List Coord) (img out : Img), stage2 wt inter bs l img = some out →
      ∀ p q : Nat, out.pix p q =
        match (if (p, q) ∈ l then bilateral_core wt inter p q (inter.pix p q) bs
            else none) with
        | some col => col
        | none => img.pix p q := by
  intro l
  induction l with
  | nil =>
    intro img out h p q
    unfold stage2 at h
    simp only [List.foldlM_nil] at h
    cases h
    simp
  | cons c rest ih =>
    intro img out h p q
    unfold stage2 at h
    rw [List.foldlM_cons] at h
    rcases Option.bind_eq_some.mp h with ⟨img1, h1, h2⟩
    have hrest : stage2 wt inter bs rest img1 = some out := h2
    have hstep : ∃ res, bilateral_sample wt inter c.1 c.2 bs = some res ∧
        (match res with
          | some col => img.put? c.1 c.2 col
          | none => pure img) = some img1 := by
      unfold stage2Step at h1
      exact Option.bind_eq_some.mp h1
    rcases hstep with ⟨res, hres, hmat⟩
    have hresv : res = bilateral_core wt inter c.1 c.2 (inter.pix c.1 c.2) bs :=
      bilateral_sample_some hres
    by_cases hr : (p, q) ∈ rest
    · have hthis := ih img1 out hrest p q
      rw [if_pos hr] at hthis
      rw [if_pos (List.mem_cons_of_mem _ hr)]
      cases hs : bilateral_core wt inter p q (inter.pix p q) bs with
      | some col => rw [hthis, hs]
      | none =>
        rw [hthis, hs]
        by_cases hc : c = ((p, q) : Coord)
        · subst hc
          rw [hresv, hs] at hmat
          cases hmat
          rfl
        · exact (stage2Step_frame h1).2.2 p q fun hpq =>
            hc (by obtain ⟨e1, e2⟩ := hpq; subst e1; subst e2; rfl)
    · rcases fold_frame (fun acc a acc' hstep => stage2Step_frame hstep) rest img1 out hrest
        with ⟨-, -, hframe⟩
      have hout : out.pix p q = img1.pix p q := hframe p q hr
      by_cases hcc : c = ((p, q) : Coord)
      · subst hcc
        rw [if_pos (List.mem_cons_self _ _)]
        cases hs : bilateral_core wt inter p q (inter.pix p q) bs with
        | some col =>
          rw [hresv, hs] at hmat
          rcases put?_some hmat with ⟨-, -, hwrite, -⟩
          rw [hout, hwrite]
        | none =>
          rw [hresv, hs] at hmat
          cases hmat
          rw [hout]
      · have hnotmem : ((p, q) : Coord) ∉ c :: rest := by
          intro hm
          rcases List.mem_cons.mp hm with hm | hm
          · exact hcc hm.symm
          · exact hr hm
        rw [if_neg hnotmem, hout]
        exact (stage2Step_frame h1).2.2 p q fun hpq =>
          hcc (by obtain ⟨e1, e2⟩ := hpq; subst e1; subst e2; rfl)

/-- Pointwise description of inpainting pass 3, for a duplicate-free
candidate list: the brightness trigger of each pixel reads that pixel's
value in the incoming (Stage-B) raster. -/
theorem stage3_pix (inter : Img) :
    ∀ (l : List Coord), l.Nodup → ∀ (img out : Img), stage3 inter l img = some out →
      ∀ p q : Nat, out.pix p q =
        if (p, q) ∈ l then
          (if 220 < (img.pix p q).r ∨ 220 < (img.pix p q).g ∨ 220 < (img.pix p q).b then
            match aggressive_cleanup inter p q with
            | some col => col
            | none => img.pix p q
          else img.pix p q)
        else img.pix p q := by
  intro l
  induction l with
  | nil =>
    intro _ img out h p q
    unfold stage3 at h
    simp only [List.foldlM_nil] at h
    cases h
    simp
  | cons c rest ih =>
    intro hnd img out h p q
    have hcnr : c ∉ rest := (List.nodup_cons.mp hnd).1
    have hndr : rest.Nodup := (List.nodup_cons.mp hnd).2
    unfold stage3 at h
    rw [List.foldlM_cons] at h
    rcases Option.bind_eq_some.mp h with ⟨img1, h1, h2⟩
    have hrest : stage3 inter rest img1 = some out := h2
    have hstep : ∃ pv, img.get? (c.1 : Nat) (c.2 : Nat) = some pv ∧
        (if 220 < pv.r ∨ 220 < pv.g ∨ 220 < pv.b then
          match aggressive_cleanup inter c.1 c.2 with
          | some col => img.put? c.1 c.2 col
          | none => pure img
        else pure img) = some img1 := by
      unfold stage3Step at h1
      exact Option.bind_eq_some.mp h1
    rcases hstep with ⟨pv, hpv, hmat⟩
    have hpvv : pv = img.pix c.1 c.2 := by
      rcases get?_some hpv with ⟨-, -, -, -, hv⟩
      rw [hv]
      simp
    have himg1c : ∀ p q, ¬(p = c.1 ∧ q = c.2) → img1.pix p q = img.pix p q :=
      (stage3Step_frame h1).2.2
    by_cases hr : (p, q) ∈ rest
    · have hneq : ¬(p = c.1 ∧ q = c.2) := by
        rintro ⟨rfl, rfl⟩
        exact hcnr (by simpa using hr)
      have hthis := ih hndr img1 out hrest p q
      rw [if_pos hr] at hthis
      rw [if_pos (List.mem_cons_of_mem _ hr), hthis, himg1c p q hneq]
    · rcases fold_frame (fun acc a acc' hs => stage3Step_frame hs) rest img1 out hrest
        with ⟨-, -, hframe⟩
      have hout : out.pix p q = img1.pix p q := hframe p q hr
      by_cases hcc : c = ((p, q) : Coord)
      · subst hcc
        rw [if_pos (List.mem_cons_self _ _)]
        rw [hpvv] at hmat
        by_cases htrig : 220 < (img.pix p q).r ∨ 220 < (img.pix p q).g ∨
            220 < (img.pix p q).b
        · rw [if_pos htrig] at hmat
          rw [if_pos htrig]
          cases hs : aggressive_cleanup inter p q with
          | some col =>
            rw [hs] at hmat
            rcases put?_some hmat with ⟨-, -, hwrite, -⟩
            rw [hout, hwrite]
          | none =>
            rw [hs] at hmat
            cases hmat
            rw [hout]
        · rw [if_neg htrig] at hmat
          rw [if_neg htrig]
          cases hmat
          rw [hout]
      · have hnotmem : ((p, q) : Coord) ∉ c :: rest := by
          intro hm
          rcases List.mem_cons.mp hm with hm | hm
          · exact hcc hm.symm
          · exact hr hm
        rw [if_neg hnotmem, hout]
        exact himg1c p q fun hpq =>
          hcc (by obtain ⟨e1, e2⟩ := hpq; subst e1; subst e2; rfl)

/-- `filterMap` only depends on the pointwise values of its function. -/
theorem filterMap_congr_mem {a b : Type} (l : List a) (f g : a → Option b)
    (h : ∀ x ∈ l, f x = g x) : l.filterMap f = l.filterMap g := by
  induction l with
  | nil => rfl
  | cons x l ih =>
    rw [List.filterMap_cons, List.filterMap_cons, h x (List.mem_cons_self _ _),
      ih fun z hz => h z (List.mem_cons_of_mem _ hz)]

/-- The ray scan only depends on the membership predicate of the mask. -/
theorem rayFirst_congr (img : Img) (x y : Nat) (m1 m2 : List Coord)
    (hm : ∀ z : Coord, z ∈ m1 ↔ z ∈ m2) (d : Int × Int) :
    ∀ dists, rayFirst img x y m1 d dists = rayFirst img x y m2 d dists := by
  intro dists
  induction dists with
  | nil => rfl
  | cons dist rest ih =>
    unfold rayFirst
    by_cases hb : 0 ≤ (x : Int) + d.1 * (dist : Int) ∧ 0 ≤ (y : Int) + d.2 * (dist : Int) ∧
        (x : Int) + d.1 * (dist : Int) < (img.width : Int) ∧
        (y : Int) + d.2 * (dist : Int) < (img.height : Int)
    · rw [if_pos hb, if_pos hb]
      by_cases hmem : ((((x : Int) + d.1 * (dist : Int)).toNat,
          (((y : Int) + d.2 * (dist : Int)).toNat)) : Coord) ∈ m1
      · rw [if_pos hmem, if_pos ((hm _).mp hmem)]
        exact ih
      · rw [if_neg hmem, if_neg fun hz => hmem ((hm _).mpr hz)]
        by_cases hdark : (img.pix ((x : Int) + d.1 * (dist : Int)).toNat
              ((y : Int) + d.2 * (dist : Int)).toNat).r < 200 ∧
            (img.pix ((x : Int) + d.1 * (dist : Int)).toNat
              ((y : Int) + d.2 * (dist : Int)).toNat).g < 200 ∧
            (img.pix ((x : Int) + d.1 * (dist : Int)).toNat
              ((y : Int) + d.2 * (dist : Int)).toNat).b < 200
        · rw [if_pos hdark, if_pos hdark]
        · rw [if_neg hdark, if_neg hdark]
          exact ih
    · rw [if_neg hb, if_neg hb]
      exact ih

/-- Stage-A sampling only depends on the membership predicate of the mask. -/
theorem sample_far_congr (img : Img) (x y : Nat) (m1 m2 : List Coord)
    (hm : ∀ z : Coord, z ∈ m1 ↔ z ∈ m2) :
    sample_far_neighbors img x y m1 = sample_far_neighbors img x y m2 := by
  unfold sample_far_neighbors
  rw [filterMap_congr_mem directions _ _ fun d _ => rayFirst_congr img x y m1 m2 hm d rayDists]

/-- The Stage-B window accumulation only depends on the membership predicate
of the candidate set. -/
theorem bilateral_core_congr (wt : Weights) (img : Img) (x y : Nat) (center : Rgb)
    (b1 b2 : List Coord) (hb : ∀ z : Coord, z ∈ b1 ↔ z ∈ b2) :
    bilateral_core wt img x y center b1 = bilateral_core wt img x y center b2 := by
  unfold bilateral_core
  rw [foldl_congr_mem (windowOffs 15) _ _ ?_]
  intro acc d _
  by_cases h1 : d.1.natAbs < 5 ∧ d.2.natAbs < 5
  · rw [if_pos h1, if_pos h1]
  · rw [if_neg h1, if_neg h1]
    by_cases h2 : 0 ≤ (x : Int) + d.1 ∧ 0 ≤ (y : Int) + d.2 ∧
        (x : Int) + d.1 < (img.width : Int) ∧ (y : Int) + d.2 < (img.height : Int)
    · rw [if_pos h2, if_pos h2]
      by_cases h3 : ((((x : Int) + d.1).toNat, ((y : Int) + d.2).toNat) : Coord) ∈ b1
      · rw [if_pos h3, if_pos ((hb _).mp h3)]
      · rw [if_neg h3, if_neg fun hz => h3 ((hb _).mpr hz)]
    · rw [if_neg h2, if_neg h2]

/-- Membership after a bounded-insert fold step. -/
theorem insert_if_mem (m : List Coord) (P : Prop) [Decidable P] (g : Coord) (z : Coord) :
    (z ∈ if P then insertC m g else m) ↔ z ∈ m ∨ (P ∧ z = g) := by
  by_cases hp : P
  · rw [if_pos hp, insertC_mem]
    constructor
    · rintro (h | h)
      · exact Or.inl h
      · exact Or.inr ⟨hp, h⟩
    · rintro (h | ⟨-, h⟩)
      · exact Or.inl h
      · exact Or.inr h
  · rw [if_neg hp]
    constructor
    · exact fun h => Or.inl h
    · rintro (h | ⟨hP, -⟩)
      · exact h
      · exact absurd hP hp

/-- Extensional description of the exclusion mask: exactly the in-bounds
pixels within `x ± 7`, `y ± 10` of some candidate. -/
theorem build_exclusion_mem (w h : Nat) (l : List Coord) (z : Coord) :
    z ∈ build_exclusion w h l ↔
      z.1 < w ∧ z.2 < h ∧ ∃ c ∈ l, ((z.1 : Int) - c.1).natAbs ≤ 7 ∧
        ((z.2 : Int) - c.2).natAbs ≤ 10 := by
  unfold build_exclusion
  rw [foldl_addset_mem l _
    (fun c z => z.1 < w ∧ z.2 < h ∧ ((z.1 : Int) - c.1).natAbs ≤ 7 ∧
      ((z.2 : Int) - c.2).natAbs ≤ 10) ?_ [] z]
  · simp only [List.not_mem_nil, false_or]
    constructor
    · rintro ⟨c, hc, h1, h2, h3, h4⟩
      exact ⟨h1, h2, c, hc, h3, h4⟩
    · rintro ⟨h1, h2, c, hc, h3, h4⟩
      exact ⟨c, hc, h1, h2, h3, h4⟩
  · intro m c zz hc
    rw [foldl_addset_mem maskOffs _
      (fun d zz => (0 ≤ (c.1 : Int) + d.1 ∧ 0 ≤ (c.2 : Int) + d.2 ∧
          (c.1 : Int) + d.1 < (w : Int) ∧ (c.2 : Int) + d.2 < (h : Int)) ∧
        zz = (((c.1 : Int) + d.1).toNat, ((c.2 : Int) + d.2).toNat)) ?_ m zz]
    · constructor
      · rintro (hm | ⟨d, hd, ⟨hb1, hb2, hb3, hb4⟩, rfl⟩)
        · exact Or.inl hm
        · rw [maskOffs_mem] at hd
          refine Or.inr ⟨by omega, by omega, by omega, by omega⟩
      · rintro (hm | ⟨h1, h2, h3, h4⟩)
        · exact Or.inl hm
        · refine Or.inr ⟨((zz.1 : Int) - c.1, (zz.2 : Int) - c.2), ?_, ⟨?_, ?_, ?_, ?_⟩, ?_⟩
          · rw [maskOffs_mem]
            constructor
            · omega
            · exact ⟨by omega, by omega, by omega⟩
          · omega
          · omega
          · omega
          · omega
          · cases zz with
            | mk z1 z2 =>
              simp only [Prod.mk.injEq]
              constructor
              · omega
              · omega
    · intro m2 d zz2 hd
      exact insert_if_mem m2 _ _ zz2

/-- A successful edge test implies the centre pixel is in bounds. -/
theorem ihce_some_bounds {img : Img} {x y : Nat} {b : Bool}
    (h : is_high_contrast_edge img x y = some b) : x < img.width ∧ y < img.height := by
  unfold is_high_contrast_edge at h
  rcases Option.bind_eq_some.mp h with ⟨center, hc, -⟩
  rcases get?_some hc with ⟨-, -, h3, h4, -⟩
  exact ⟨by exact_mod_cast h3, by exact_mod_cast h4⟩

/-- All pixels collected by detection pass 1 are in bounds. -/
theorem pass1_inb {img : Img} {l : List Coord} (h : pass1 img = some l) :
    ∀ c ∈ l, c.1 < img.width ∧ c.2 < img.height := by
  unfold pass1 at h
  refine foldlM_opt_ind (fun s => ∀ c ∈ s, c.1 < img.width ∧ c.2 < img.height) _ _ ?_ _ _ h
    (by simp)
  intro t y t' _ hP hstep
  refine foldlM_opt_ind (fun s => ∀ c ∈ s, c.1 < img.width ∧ c.2 < img.height) _ _ ?_ _ _
    hstep hP
  intro u x u' _ hPu hstepx
  rcases Option.bind_eq_some.mp hstepx with ⟨p, hp, h2⟩
  cases h2
  rcases get?_some hp with ⟨-, -, hxw, hyh, -⟩
  intro c hcmem
  by_cases hbright : 235 < p.r ∧ 235 < p.g ∧ 235 < p.b
  · rw [if_pos hbright] at hcmem
    rcases (insertC_mem _ _ _).mp hcmem with hm | rfl
    · exact hPu c hm
    · exact ⟨by exact_mod_cast hxw, by exact_mod_cast hyh⟩
  · rw [if_neg hbright] at hcmem
    exact hPu c hcmem

/-- All pixels collected by one pass-2 row are in bounds. -/
theorem edgeRow_inb {img : Img} {xc y : Nat} {acc acc' : List Coord}
    (h : edgeRow img xc y acc = some acc')
    (hP : ∀ c ∈ acc, c.1 < img.width ∧ c.2 < img.height) :
    ∀ c ∈ acc', c.1 < img.width ∧ c.2 < img.height := by
  unfold edgeRow at h
  refine foldlM_opt_ind (fun s => ∀ c ∈ s, c.1 < img.width ∧ c.2 < img.height) _ _ ?_ _ _ h hP
  intro u x u' _ hPu hstep
  rcases Option.bind_eq_some.mp hstep with ⟨e, he, h2⟩
  cases h2
  intro c hcmem
  by_cases hb : e = true
  · rw [if_pos hb] at hcmem
    rcases (insertC_mem _ _ _).mp hcmem with hm | rfl
    · exact hPu c hm
    · exact ihce_some_bounds he
  · rw [if_neg hb] at hcmem
    exact hPu c hcmem

/-- All pixels collected by the pass-2 scan are in bounds. -/
theorem edgeScan_inb {img : Img} {xc : Nat} :
    ∀ (fuel y : Nat) (acc acc' : List Coord), edgeScan img xc fuel y acc = some acc' →
      (∀ c ∈ acc, c.1 < img.width ∧ c.2 < img.height) →
      ∀ c ∈ acc', c.1 < img.width ∧ c.2 < img.height := by
  intro fuel
  induction fuel with
  | zero =>
    intro y acc acc' h hP
    cases h
    exact hP
  | succ n ih =>
    intro y acc acc' h hP
    unfold edgeScan at h
    rcases Option.bind_eq_some.mp h with ⟨mid, hmid, hrest⟩
    exact ih (y + 1) mid acc' hrest (edgeRow_inb hmid hP)

/-- All pixels collected by detection pass 2 are in bounds. -/
theorem pass2_inb {img : Img} {l : List Coord} (h : pass2 img = some l) :
    ∀ c ∈ l, c.1 < img.width ∧ c.2 < img.height := by
  unfold pass2 at h
  exact edgeScan_inb _ _ _ _ h (by simp)

/-- The combine loop only adds members of the iterated edge list. -/
theorem pass3_inb {img : Img} (edges s0 : List Coord)
    (hE : ∀ c ∈ edges, c.1 < img.width ∧ c.2 < img.height)
    (hS : ∀ c ∈ s0, c.1 < img.width ∧ c.2 < img.height) :
    ∀ c ∈ pass3 edges s0, c.1 < img.width ∧ c.2 < img.height := by
  unfold pass3
  refine foldl_ind (fun s => ∀ c ∈ s, c.1 < img.width ∧ c.2 < img.height) _ edges ?_ s0 hS
  intro t a ha hP c hcmem
  by_cases hn : near t a.1 a.2 = true
  · rw [if_pos hn] at hcmem
    rcases (insertC_mem _ _ _).mp hcmem with hm | rfl
    · exact hP c hm
    · exact hE _ ha
  · rw [if_neg hn] at hcmem
    exact hP c hcmem

/-- One pass-4 step only inserts in-bounds pixels. -/
theorem pass4Step_inb {w h mx : Nat} {s : List Coord} {a : Coord}
    (ha : a.1 < w ∧ a.2 < h) (hP : ∀ c ∈ s, c.1 < w ∧ c.2 < h) :
    ∀ c ∈ pass4Step w h mx s a, c.1 < w ∧ c.2 < h := by
  unfold pass4Step
  have hvert : ∀ (t : List Coord), (∀ c ∈ t, c.1 < w ∧ c.2 < h) →
      ∀ c ∈ (offs (-4) 4).foldl
        (fun s dx =>
          let nx := (a.1 : Int) + dx
          if 0 ≤ nx ∧ nx < min ((mx : Int) + 5) (w : Int) then insertC s (nx.toNat, a.2)
          else s) t, c.1 < w ∧ c.2 < h := by
    intro t ht
    refine foldl_ind (fun s => ∀ c ∈ s, c.1 < w ∧ c.2 < h) _ _ ?_ t ht
    intro u dx _ hPu c hcmem
    rcases (insert_if_mem u _ _ c).mp hcmem with hm | ⟨hcond, rfl⟩
    · exact hPu c hm
    · constructor
      · have := hcond.2
        omega
      · exact ha.2
  have hhorz : ∀ (t : List Coord), (∀ c ∈ t, c.1 < w ∧ c.2 < h) →
      ∀ c ∈ (offs (-8) 8).foldl
        (fun s dy =>
          let ny := (a.2 : Int) + dy
          if 0 ≤ ny ∧ ny < (h : Int) then insertC s (a.1, ny.toNat) else s) t,
        c.1 < w ∧ c.2 < h := by
    intro t ht
    refine foldl_ind (fun s => ∀ c ∈ s, c.1 < w ∧ c.2 < h) _ _ ?_ t ht
    intro u dy _ hPu c hcmem
    rcases (insert_if_mem u _ _ c).mp hcmem with hm | ⟨hcond, rfl⟩
    · exact hPu c hm
    · constructor
      · exact ha.1
      · have := hcond.2
        omega
  by_cases hV : (0 < a.2 ∧ (a.1, a.2 - 1) ∈ s) ∨ (a.2 < u32pred h ∧ (a.1, a.2 + 1) ∈ s)
  · rw [if_pos hV]
    by_cases hH : (0 < a.1 ∧ (a.1 - 1, a.2) ∈ s) ∨ (a.1 < u32pred w ∧ (a.1 + 1, a.2) ∈ s)
    · rw [if_pos hH]
      exact hvert _ (hhorz s hP)
    · rw [if_neg hH]
      exact hvert _ hP
  · rw [if_neg hV]
    by_cases hH : (0 < a.1 ∧ (a.1 - 1, a.2) ∈ s) ∨ (a.1 < u32pred w ∧ (a.1 + 1, a.2) ∈ s)
    · rw [if_pos hH]
      exact hhorz s hP
    · rw [if_neg hH]
      exact hP

/-- The upward scan's hit row is at most `y`. -/
theorem scanUp_le {img : Img} {x y : Nat} :
    ∀ {dys : List Nat} {n : Nat}, scanUp img x y dys = some (some n) → n ≤ y := by
  intro dys
  induction dys with
  | nil =>
    intro n h
    cases h
  | cons dy rest ih =>
    intro n h
    unfold scanUp at h
    split at h
    · rcases Option.bind_eq_some.mp h with ⟨p, -, h2⟩
      split at h2
      · cases h2
        omega
      · exact ih h2
    · exact ih h

/-- One pass-5 step only inserts in-bounds pixels. -/
theorem pass5Step_inb {img : Img} {s : List Coord} {a : Coord} {s' : List Coord}
    (h : pass5Step img s a = some s') (ha : a.1 < img.width ∧ a.2 < img.height)
    (hP : ∀ c ∈ s, c.1 < img.width ∧ c.2 < img.height) :
    ∀ c ∈ s', c.1 < img.width ∧ c.2 < img.height := by
  unfold pass5Step at h
  rcases Option.bind_eq_some.mp h with ⟨hit, hhit, h2⟩
  cases hit with
  | some ny =>
    cases h2
    have hny : ny ≤ a.2 := scanUp_le hhit
    refine foldl_ind (fun s => ∀ c ∈ s, c.1 < img.width ∧ c.2 < img.height) _ _ ?_ s hP
    intro u fy hfy hPu c hcmem
    rcases (insertC_mem _ _ _).mp hcmem with hm | rfl
    · exact hPu c hm
    · have hfy2 := List.mem_range'_1.mp hfy
      exact ⟨ha.1, by omega⟩
  | none =>
    cases h2
    exact hP

/-- One aggressive-expansion step only inserts in-bounds pixels (its guard
clips to the raster). -/
theorem pass3aStep_inb {img : Img} {s : List Coord} {a : Coord}
    (hP : ∀ c ∈ s, c.1 < img.width ∧ c.2 < img.height) :
    ∀ c ∈ pass3aStep img s a, c.1 < img.width ∧ c.2 < img.height := by
  unfold pass3aStep
  refine foldl_ind (fun s => ∀ c ∈ s, c.1 < img.width ∧ c.2 < img.height) _ _ ?_ s hP
  intro u d _ hPu c hcmem
  by_cases hb : 0 ≤ (a.1 : Int) + d.1 ∧ 0 ≤ (a.2 : Int) + d.2 ∧
      (a.1 : Int) + d.1 < (maxX img.width : Int) ∧
      (minY img.height : Int) ≤ (a.2 : Int) + d.2 ∧
      (a.1 : Int) + d.1 < (img.width : Int) ∧ (a.2 : Int) + d.2 < (img.height : Int)
  · rw [if_pos hb] at hcmem
    by_cases hbr : 200 < (img.pix ((a.1 : Int) + d.1).toNat ((a.2 : Int) + d.2).toNat).r ∨
        200 < (img.pix ((a.1 : Int) + d.1).toNat ((a.2 : Int) + d.2).toNat).g ∨
        200 < (img.pix ((a.1 : Int) + d.1).toNat ((a.2 : Int) + d.2).toNat).b
    · rw [if_pos hbr] at hcmem
      rcases (insertC_mem _ _ _).mp hcmem with hm | rfl
      · exact hPu c hm
      · constructor
        · have := hb.2.2.2.2.1
          omega
        · have := hb.2.2.2.2.2
          omega
    · rw [if_neg hbr] at hcmem
      exact hPu c hcmem
  · rw [if_neg hb] at hcmem
    exact hPu c hcmem

/-- One pass-6 step only inserts in-bounds pixels. -/
theorem pass6Step_inb {img : Img} {s : List Coord} {a : Coord}
    (hP : ∀ c ∈ s, c.1 < img.width ∧ c.2 < img.height) :
    ∀ c ∈ pass6Step img s a, c.1 < img.width ∧ c.2 < img.height := by
  unfold pass6Step
  by_cases hc : ((a.1 - 1, a.2) ∈ s ∨ (a.1 + 1, a.2) ∈ s) ∧
      ((a.1, a.2 - 1) ∈ s ∨ (a.1, a.2 + 1) ∈ s)
  · rw [if_pos hc]
    refine foldl_ind (fun s => ∀ c ∈ s, c.1 < img.width ∧ c.2 < img.height) _ _ ?_ s hP
    intro u d _ hPu c hcmem
    by_cases hb : 0 ≤ (a.1 : Int) + d.1 ∧ 0 ≤ (a.2 : Int) + d.2 ∧
        (a.1 : Int) + d.1 < (img.width : Int) ∧ (a.2 : Int) + d.2 < (img.height : Int)
    · rw [if_pos hb] at hcmem
      by_cases hbr : 180 < (img.pix ((a.1 : Int) + d.1).toNat ((a.2 : Int) + d.2).toNat).r ∨
          180 < (img.pix ((a.1 : Int) + d.1).toNat ((a.2 : Int) + d.2).toNat).g ∨
          180 < (img.pix ((a.1 : Int) + d.1).toNat ((a.2 : Int) + d.2).toNat).b
      · rw [if_pos hbr] at hcmem
        rcases (insertC_mem _ _ _).mp hcmem with hm | rfl
        · exact hPu c hm
        · constructor
          · have := hb.2.2.1
            omega
          · have := hb.2.2.2
            omega
      · rw [if_neg hbr] at hcmem
        exact hPu c hcmem
    · rw [if_neg hb] at hcmem
      exact hPu c hcmem
  · rw [if_neg hc]
    exact hP

/-- Every coordinate returned by the detector is inside the raster. -/
theorem detect_inb {img : Img} {o : Orders} {l : List Coord} (hL : Orders.Lawful o)
    (h : detect_autofocus_box img o = some l) :
    ∀ c ∈ l, c.1 < img.width ∧ c.2 < img.height := by
  unfold detect_autofocus_box at h
  rcases Option.bind_eq_some.mp h with ⟨s1, hs1, h⟩
  rcases Option.bind_eq_some.mp h with ⟨edges, hedges, h⟩
  rcases Option.bind_eq_some.mp h with ⟨s5, hs5, h⟩
  cases h
  have hInb1 : ∀ c ∈ s1, c.1 < img.width ∧ c.2 < img.height := pass1_inb hs1
  have hInbE : ∀ c ∈ edges, c.1 < img.width ∧ c.2 < img.height := pass2_inb hedges
  have hInb3 : ∀ c ∈ pass3 (o.oE edges) s1, c.1 < img.width ∧ c.2 < img.height :=
    pass3_inb _ _ (fun c hc => hInbE c ((hL.1 edges).mem_iff.mp hc)) hInb1
  have hInb3a : ∀ c ∈ (o.o3 (pass3 (o.oE edges) s1)).foldl (pass3aStep img)
      (pass3 (o.oE edges) s1), c.1 < img.width ∧ c.2 < img.height := by
    refine foldl_ind (fun s : List Coord => ∀ c ∈ s, c.1 < img.width ∧ c.2 < img.height)
      _ _ ?_ _ hInb3
    intro t a _ hP
    exact pass3aStep_inb hP
  have hInb4 : ∀ c ∈ (o.o4 ((o.o3 (pass3 (o.oE edges) s1)).foldl (pass3aStep img)
      (pass3 (o.oE edges) s1))).foldl (pass4Step img.width img.height (maxX img.width))
      ((o.o3 (pass3 (o.oE edges) s1)).foldl (pass3aStep img) (pass3 (o.oE edges) s1)),
      c.1 < img.width ∧ c.2 < img.height := by
    refine foldl_ind (fun s : List Coord => ∀ c ∈ s, c.1 < img.width ∧ c.2 < img.height)
      _ _ ?_ _ hInb3a
    intro t a ha hP
    exact pass4Step_inb (hInb3a a ((hL.2.2.1 _).mem_iff.mp ha)) hP
  have hInb5 : ∀ c ∈ s5, c.1 < img.width ∧ c.2 < img.height := by
    refine foldlM_opt_ind (fun s => ∀ c ∈ s, c.1 < img.width ∧ c.2 < img.height) _ _ ?_ _ _
      hs5 hInb4
    intro t a t' ha hP hstep
    exact pass5Step_inb hstep (hInb4 a ((hL.2.2.2.1 _).mem_iff.mp ha)) hP
  have hInb6 : ∀ c ∈ (o.o6 s5).foldl (pass6Step img) s5,
      c.1 < img.width ∧ c.2 < img.height := by
    refine foldl_ind (fun s : List Coord => ∀ c ∈ s, c.1 < img.width ∧ c.2 < img.height)
      _ _ ?_ _ hInb5
    intro t a _ hP
    exact pass6Step_inb hP
  intro c hc
  exact hInb6 c ((hL.2.2.2.2.2 _).mem_iff.mp hc)

/-- Total-fold variants whose conclusions match goals directly. -/
theorem foldlM_opt_total_eq {α σ : Type} (P : σ → Prop) (step : σ → α → Option σ)
    (l : List α) (s : σ) (target : σ)
    (hyp : ∀ t a, a ∈ l → P t → ∃ t', step t a = some t' ∧ P t')
    (hs : P s) (huniq : ∀ s', P s' → s' = target) :
    List.foldlM step s l = some target := by
  rcases foldlM_opt_total P step l hyp s hs with ⟨s', h, hP⟩
  rw [h, huniq s' hP]

theorem foldlM_opt_total_ex {α σ : Type} (step : σ → α → Option σ) (l : List α) (s : σ)
    (hyp : ∀ t a, a ∈ l → ∃ t', step t a = some t') :
    ∃ s', List.foldlM step s l = some s' := by
  rcases foldlM_opt_total (fun _ => True) step l
    (fun t a ha _ => by
      rcases hyp t a ha with ⟨t', ht⟩
      exact ⟨t', ht, trivial⟩) s trivial with ⟨s', h, -⟩
  exact ⟨s', h⟩

theorem bind_total {α β : Type} {e : Option α} {f : α → Option β}
    (he : ∃ a, e = some a) (hf : ∀ a, ∃ b, f a = some b) : ∃ b, e >>= f = some b := by
  rcases he with ⟨a, rfl⟩
  rcases hf a with ⟨b, hb⟩
  refine ⟨b, ?_⟩
  simp only [Option.bind_eq_bind, Option.some_bind]
  exact hb

/-- If no pixel of the search region is bright on all three channels,
pass 1 finds nothing (and performs no out-of-range read). -/
theorem pass1_clean {img : Img}
    (hc : ∀ x y : Nat, x < maxX img.width → minY img.height ≤ y → y < img.height →
      ¬(235 < (img.pix x y).r ∧ 235 < (img.pix x y).g ∧ 235 < (img.pix x y).b)) :
    pass1 img = some [] := by
  unfold pass1
  refine foldlM_opt_total_eq (fun s : List Coord => s = []) _ _ _ _ ?_ rfl fun s' h => h
  intro t y hy hPt
  have hy2 := List.mem_range'_1.mp hy
  have hyy : minY img.height ≤ y ∧ y < img.height := by
    have := minY_le img.height
    omega
  refine foldlM_opt_total _ _ _ ?_ t hPt
  intro u x hx hPu
  have hx2 := List.mem_range.mp hx
  have hxw : x < img.width := lt_of_lt_of_le hx2 (maxX_le img.width)
  refine ⟨u, ?_, hPu⟩
  rw [get?_of_lt hxw hyy.2]
  have hnb := hc x y hx2 hyy.1 hyy.2
  simp only [Option.bind_eq_bind, Option.some_bind, if_neg hnb]
  rfl

/-- Totality of the edge test away from the raster border. -/
theorem ihce_total {img : Img} {x y : Nat} (h1 : 1 ≤ x) (h2 : x + 1 < img.width)
    (h3 : 1 ≤ y) (h4 : y + 1 < img.height) : ∃ b, is_high_contrast_edge img x y = some b := by
  unfold is_high_contrast_edge
  rw [get?_of_lt (by omega) (by omega)]
  simp only [Option.bind_eq_bind, Option.some_bind]
  refine bind_total ?_ fun md => ⟨_, rfl⟩
  refine foldlM_opt_total_ex _ _ _ ?_
  intro t d hd
  have hget : ∃ p, img.get? ((x : Int) + d.1) ((y : Int) + d.2) = some p := by
    have hdb : (-1 ≤ d.1 ∧ d.1 ≤ 1) ∧ (-1 ≤ d.2 ∧ d.2 ≤ 1) := by
      simp only [neighborOffs, List.mem_cons, List.not_mem_nil, or_false] at hd
      rcases hd with rfl | rfl | rfl | rfl | rfl | rfl | rfl | rfl <;> norm_num
    unfold Img.get?
    refine ⟨_, if_pos ?_⟩
    refine ⟨by omega, by omega, by omega, by omega⟩
  rcases hget with ⟨p, hp⟩
  rw [hp]
  simp only [Option.bind_eq_bind, Option.some_bind]
  exact ⟨_, rfl⟩

/-- Totality of the pass-2 row scan when every visited row and column is
interior. -/
theorem edgeScan_total {img : Img} {xc : Nat}
    (hx : ∀ x : Nat, 1 ≤ x → x < 1 + xc → x + 1 < img.width) :
    ∀ (fuel y : Nat), (∀ y' : Nat, y ≤ y' → y' < y + fuel → 1 ≤ y' ∧ y' + 1 < img.height) →
      ∀ acc, ∃ acc', edgeScan img xc fuel y acc = some acc' := by
  intro fuel
  induction fuel with
  | zero =>
    intro y _ acc
    exact ⟨acc, rfl⟩
  | succ n ih =>
    intro y hy acc
    have hrow : ∃ mid, edgeRow img xc y acc = some mid := by
      unfold edgeRow
      refine foldlM_opt_total_ex _ _ _ ?_
      intro t z hz
      have hz2 := List.mem_range'_1.mp hz
      have hyb := hy y (le_refl y) (by omega)
      rcases ihce_total hz2.1 (hx z hz2.1 (by omega)) hyb.1 hyb.2 with ⟨b, hb⟩
      rw [hb]
      simp only [Option.bind_eq_bind, Option.some_bind]
      exact ⟨_, rfl⟩
    rcases hrow with ⟨mid, hmid⟩
    rcases ih (y + 1) (fun z hz1 hz2 => hy z (by omega) (by omega)) mid with ⟨acc', hacc'⟩
    refine ⟨acc', ?_⟩
    unfold edgeScan
    rw [hmid]
    simp only [Option.bind_eq_bind, Option.some_bind]
    exact hacc'

/-- Pass 2 terminates without a panic on a well-formed raster. -/
theorem pass2_total {img : Img} (hw : 0 < img.width) (hh : 0 < img.height)
    (hw32 : img.width < 4294967296) (hh32 : img.height < 4294967296) :
    ∃ edges, pass2 img = some edges := by
  unfold pass2
  rw [u32pred_eq hh hh32, u32pred_eq hw hw32]
  refine edgeScan_total ?_ _ _ ?_ []
  · intro x hx1 hx2
    have hm1 : min (maxX img.width) (img.width - 1) ≤ img.width - 1 :=
      Nat.min_le_right _ _
    omega
  · intro y' hge hlt
    constructor
    · omega
    · omega

/-- The combine loop starting from the empty set stays empty. -/
theorem near_nil (x y : Nat) : near [] x y = false := by
  simp [near]

theorem pass3_nil (edges : List Coord) : pass3 edges [] = [] := by
  unfold pass3
  refine foldl_ind (fun s : List Coord => s = []) _ edges ?_ [] rfl
  intro t a _ hP
  subst hP
  have hnn : near [] a.1 a.2 = false := near_nil a.1 a.2
  simp [hnn]

/-- With no bright pixel in the search region the whole detector returns
the empty candidate list, under any snapshot iteration orders. -/
theorem detect_clean {img : Img} {o : Orders} (hL : Orders.Lawful o)
    (hw : 0 < img.width) (hh : 0 < img.height)
    (hw32 : img.width < 4294967296) (hh32 : img.height < 4294967296)
    (hc : ∀ x y : Nat, x < maxX img.width → minY img.height ≤ y → y < img.height →
      ¬(235 < (img.pix x y).r ∧ 235 < (img.pix x y).g ∧ 235 < (img.pix x y).b)) :
    detect_autofocus_box img o = some [] := by
  unfold detect_autofocus_box
  rcases pass2_total hw hh hw32 hh32 with ⟨edges, hedges⟩
  rw [pass1_clean hc, hedges]
  simp only [Option.bind_eq_bind, Option.some_bind, Option.pure_def, pass3_nil,
    (hL.2.1 []).eq_nil, List.foldl_nil, (hL.2.2.1 []).eq_nil, List.foldlM_nil,
    (hL.2.2.2.1 []).eq_nil, (hL.2.2.2.2.1 []).eq_nil, (hL.2.2.2.2.2 []).eq_nil]

/-- `filterMap` of a guarded function is `map` after `filter`. -/
theorem filterMap_eq_map_filter {a b : Type} (l : List a) (f : a → Option b)
    (p : a → Bool) (g : a → b)
    (h : ∀ x ∈ l, f x = if p x then some (g x) else none) :
    l.filterMap f = (l.filter p).map g := by
  induction l with
  | nil => rfl
  | cons x l ih =>
    have hx := h x (List.mem_cons_self _ _)
    have ihl := ih fun z hz => h z (List.mem_cons_of_mem _ hz)
    by_cases hp : p x = true
    · rw [List.filterMap_cons, hx, if_pos hp, List.filter_cons_of_pos hp, List.map_cons, ihl]
    · rw [List.filterMap_cons, hx, if_neg hp,
        List.filter_cons_of_neg (by simpa using hp), ihl]

/-- The source's Stage-C sampler equals the spec-worded form with the 15x15
inner exclusion (`innerRad = 7`). -/
theorem aggressive_cleanup_eq_spec (img : Img) (x y : Nat) :
    aggressive_cleanup img x y = aggressive_cleanup_spec img x y 7 := by
  unfold aggressive_cleanup aggressive_cleanup_spec
  rw [filterMap_eq_map_filter (windowOffs 20) _
    (fun d : Int × Int =>
      decide (¬(d.1.natAbs ≤ 7 ∧ d.2.natAbs ≤ 7) ∧
        0 ≤ (x : Int) + d.1 ∧ 0 ≤ (y : Int) + d.2 ∧
        (x : Int) + d.1 < (img.width : Int) ∧ (y : Int) + d.2 < (img.height : Int) ∧
        (img.pix ((x : Int) + d.1).toNat ((y : Int) + d.2).toNat).r < 180 ∧
        (img.pix ((x : Int) + d.1).toNat ((y : Int) + d.2).toNat).g < 180 ∧
        (img.pix ((x : Int) + d.1).toNat ((y : Int) + d.2).toNat).b < 180))
    (fun d => img.pix ((x : Int) + d.1).toNat ((y : Int) + d.2).toNat) ?_]
  intro d _
  by_cases h1 : d.1.natAbs < 8 ∧ d.2.natAbs < 8
  · rw [if_pos h1, if_neg]
    simp only [decide_eq_true_eq]
    rintro ⟨hcon, -⟩
    exact hcon ⟨by omega, by omega⟩
  · rw [if_neg h1]
    by_cases h2 : 0 ≤ (x : Int) + d.1 ∧ 0 ≤ (y : Int) + d.2 ∧
        (x : Int) + d.1 < (img.width : Int) ∧ (y : Int) + d.2 < (img.height : Int)
    · rw [if_pos h2]
      by_cases h3 : (img.pix ((x : Int) + d.1).toNat ((y : Int) + d.2).toNat).r < 180 ∧
          (img.pix ((x : Int) + d.1).toNat ((y : Int) + d.2).toNat).g < 180 ∧
          (img.pix ((x : Int) + d.1).toNat ((y : Int) + d.2).toNat).b < 180
      · rw [if_pos h3, if_pos]
        simp only [decide_eq_true_eq]
        refine ⟨?_, h2.1, h2.2.1, h2.2.2.1, h2.2.2.2, h3.1, h3.2.1, h3.2.2⟩
        omega
      · rw [if_neg h3, if_neg]
        simp only [decide_eq_true_eq]
        rintro ⟨-, -, -, -, -, hr, hg, hb⟩
        exact h3 ⟨hr, hg, hb⟩
    · rw [if_neg h2, if_neg]
      simp only [decide_eq_true_eq]
      rintro ⟨-, hb1, hb2, hb3, hb4, -⟩
      exact h2 ⟨hb1, hb2, hb3, hb4⟩

/-- The source's per-ray scan equals the spec-worded first-hit search. -/
theorem rayFirst_eq_spec (img : Img) (x y : Nat) (mask : List Coord) (d : Int × Int) :
    ∀ dists, rayFirst img x y mask d dists = raySpec img x y mask d dists := by
  intro dists
  induction dists with
  | nil => rfl
  | cons dist rest ih =>
    unfold rayFirst raySpec
    by_cases hb : 0 ≤ (x : Int) + d.1 * (dist : Int) ∧ 0 ≤ (y : Int) + d.2 * (dist : Int) ∧
        (x : Int) + d.1 * (dist : Int) < (img.width : Int) ∧
        (y : Int) + d.2 * (dist : Int) < (img.height : Int)
    · rw [if_pos hb]
      by_cases hmem : ((((x : Int) + d.1 * (dist : Int)).toNat,
          (((y : Int) + d.2 * (dist : Int)).toNat)) : Coord) ∈ mask
      · rw [if_pos hmem, List.find?_cons_of_neg, ih]
        · rfl
        · simp only [decide_eq_true_eq]
          rintro ⟨-, -, -, -, hnm, -⟩
          exact hnm hmem
      · rw [if_neg hmem]
        by_cases hdark : (img.pix ((x : Int) + d.1 * (dist : Int)).toNat
              ((y : Int) + d.2 * (dist : Int)).toNat).r < 200 ∧
            (img.pix ((x : Int) + d.1 * (dist : Int)).toNat
              ((y : Int) + d.2 * (dist : Int)).toNat).g < 200 ∧
            (img.pix ((x : Int) + d.1 * (dist : Int)).toNat
              ((y : Int) + d.2 * (dist : Int)).toNat).b < 200
        · rw [if_pos hdark, List.find?_cons_of_pos, Option.map_some']
          simp only [decide_eq_true_eq]
          exact ⟨hb.1, hb.2.1, hb.2.2.1, hb.2.2.2, hmem, hdark.1, hdark.2.1, hdark.2.2⟩
        · rw [if_neg hdark, List.find?_cons_of_neg, ih]
          · rfl
          · simp only [decide_eq_true_eq]
            rintro ⟨-, -, -, -, -, hr, hg, hbb⟩
            exact hdark ⟨hr, hg, hbb⟩
    · rw [if_neg hb, List.find?_cons_of_neg, ih]
      · rfl
      · simp only [decide_eq_true_eq]
        rintro ⟨hb1, hb2, hb3, hb4, -⟩
        exact hb ⟨hb1, hb2, hb3, hb4⟩

/-- The source's Stage-A sampler equals the spec-worded form at the source's
distances 12 through 24. -/
theorem sample_far_eq_spec (img : Img) (x y : Nat) (mask : List Coord) :
    sample_far_neighbors img x y mask = sample_far_spec img x y mask rayDists := by
  unfold sample_far_neighbors sample_far_spec
  rw [filterMap_congr_mem directions _ _ fun d _ => rayFirst_eq_spec img x y mask d rayDists]

/-- The whole inpainting pipeline leaves non-candidate pixels and the
dimensions untouched. -/
theorem mpi_frame {wt : Weights} {img : Img} {bp : List Coord} {out : Img}
    (h : multi_pass_inpaint wt img bp = some out) :
    out.width = img.width ∧ out.height = img.height ∧
      ∀ x y : Nat, ((x, y) : Coord) ∉ bp → out.pix x y = img.pix x y := by
  unfold multi_pass_inpaint at h
  rcases Option.bind_eq_some.mp h with ⟨i1, h1, h⟩
  rcases Option.bind_eq_some.mp h with ⟨i2, h2, h3⟩
  unfold stage1 at h1
  unfold stage2 at h2
  unfold stage3 at h3
  rcases fold_frame (fun a c a' hs => stage1Step_frame hs) bp img i1 h1 with ⟨w1, hh1, f1⟩
  rcases fold_frame (fun a c a' hs => stage2Step_frame hs) bp i1 i2 h2 with ⟨w2, hh2, f2⟩
  rcases fold_frame (fun a c a' hs => stage3Step_frame hs) bp i2 out h3 with ⟨w3, hh3, f3⟩
  refine ⟨by rw [w3, w2, w1], by rw [hh3, hh2, hh1], ?_⟩
  intro x y hx
  rw [f3 x y hx, f2 x y hx, f1 x y hx]



/-! ### Claim theorems -/

/-- Claim C1 (code-bug evidence).  The claim states that the detector
returns the same candidate set regardless of the iteration order of its
internal set snapshots because unions are applied only between passes.  In
the source, the combine loop after pass 2 and passes 4 and 6 insert into
`detected_pixels` while testing later snapshot elements against it, so the
candidate set depends on the `HashSet` iteration order: on `imgOrd`,
iterating the combine loop's edge snapshot forwards detects (5,12) but
iterating it backwards does not.  Both orders
are lawful (permutations), as a `HashSet` iteration is. -/
theorem C1_detector_order_dependent :
    Orders.Lawful ordersRev ∧
      detect_autofocus_box imgOrd ordersId = some [(1, 12), (3, 12), (5, 12)] ∧
      detect_autofocus_box imgOrd ordersRev = some [(1, 12), (3, 12)] := by
  refine ⟨⟨fun l => List.reverse_perm l, fun l => List.Perm.refl l, fun l => List.Perm.refl l,
    fun l => List.Perm.refl l, fun l => List.Perm.refl l, fun l => List.Perm.refl l⟩, ?_, ?_⟩
  · decide
  · decide

/-- Claim C2 (confirmed).  Every pixel coordinate outside the candidate set
returned by detection keeps its input value in the output raster (and the
dimensions are unchanged); when detection returns the empty set the output
is the input raster itself. -/
theorem C2_locality (wt : Weights) (o : Orders) (img : Img) (bp : List Coord)
    (hd : detect_autofocus_box img o = some bp)
    (hs : (remove_autofocus_boxes wt o img).isSome) (x y : Nat)
    (hx : ((x, y) : Coord) ∉ bp) :
    (remove_autofocus_boxes wt o img).map (fun i => i.pix x y) = some (img.pix x y) ∧
      (remove_autofocus_boxes wt o img).map (fun i => (i.width, i.height)) =
        some (img.width, img.height) ∧
      (bp = [] → remove_autofocus_boxes wt o img = some img) := by
  have hrem : remove_autofocus_boxes wt o img =
      if bp.length = 0 then some img else multi_pass_inpaint wt img bp := by
    unfold remove_autofocus_boxes
    rw [hd]
    simp only [Option.bind_eq_bind, Option.some_bind, Option.pure_def]
  by_cases hbp : bp.length = 0
  · rw [if_pos hbp] at hrem
    rw [hrem]
    exact ⟨rfl, rfl, fun _ => rfl⟩
  · rw [if_neg hbp] at hrem
    rw [hrem] at hs ⊢
    rcases Option.isSome_iff_exists.mp hs with ⟨out, hout⟩
    rcases mpi_frame hout with ⟨hw, hh, hpix⟩
    rw [hout]
    simp only [Option.map_some']
    refine ⟨by rw [hpix x y hx], by rw [hw, hh], ?_⟩
    intro hnil
    rw [hnil] at hbp
    exact absurd rfl hbp

/-- Witness for C2 on a concrete raster: the uniform gray 5x5 raster has an
empty candidate set and passes through unchanged. -/
theorem C2_locality_witness :
    (remove_autofocus_boxes weightsOne ordersId imgGray).map (fun i => i.pix 4 4) =
        some (imgGray.pix 4 4) ∧
      remove_autofocus_boxes weightsOne ordersId imgGray = some imgGray := by
  have h := C2_locality weightsOne ordersId imgGray [] (by decide) (by decide) 4 4
    (by decide)
  exact ⟨h.1, h.2.2 rfl⟩

/-- Claim C3 (code-bug evidence).  The claim says a raster with
`height = 0` yields an `InvalidDimensions` error.  The module has no error
channel at all: on a 7x0 raster the `u32` wrap of `height - 1` sends the
pass-2 edge scan to row 1 of an empty raster and `get_pixel` panics
(modelled as `none`). -/
theorem C3_zero_height_panics :
    remove_autofocus_boxes weightsOne ordersId imgZero = none := by
  have h : (remove_autofocus_boxes weightsOne ordersId imgZero).isNone := by decide
  exact Option.isNone_iff_eq_none.mp h

/-- Claim C4 (counterexample).  Stage C's sampling window is the 41x41
window minus the inner 15x15 sub-window (`|dx| < 8 && |dy| < 8`), not minus
a 17x17 sub-window as the claim states: on `imgRing` the only dark pixel
sits at offset (8,0) from (8,0), which the source samples and the claimed
17x17 exclusion would skip. -/
theorem C4_counterexample :
    aggressive_cleanup imgRing 8 0 = some ⟨100, 100, 100⟩ ∧
      aggressive_cleanup_spec imgRing 8 0 8 = none := by
  refine ⟨?_, ?_⟩
  · decide
  · decide

/-- Claim C4 (amended).  In Stage C, for every candidate pixel whose
post-Stage-B value has some channel above 220, the replacement is drawn
from the 41x41 window excluding the inner 15x15 sub-window, keeping samples
dark on all channels; at least 10 samples give the 25th luminance
percentile, some samples give the per-channel median, no samples leave the
Stage-B value. -/
theorem C4_amended_stageC (inter img out : Img) (l : List Coord) (hnd : l.Nodup)
    (h : stage3 inter l img = some out) (x y : Nat) (hmem : ((x, y) : Coord) ∈ l) :
    out.pix x y =
      if 220 < (img.pix x y).r ∨ 220 < (img.pix x y).g ∨ 220 < (img.pix x y).b then
        match aggressive_cleanup_spec inter x y 7 with
        | some col => col
        | none => img.pix x y
      else img.pix x y := by
  have hthis := stage3_pix inter l hnd img out h x y
  rw [if_pos hmem] at hthis
  rw [hthis, aggressive_cleanup_eq_spec]

/-- Witness for the amended C4 at a concrete Stage-C run. -/
theorem C4_amended_stageC_witness :
    (stage3 imgRing [(8, 0)] imgBright).map (fun i => i.pix 8 0) =
      some ⟨100, 100, 100⟩ := by
  cases hEq : stage3 imgRing [(8, 0)] imgBright with
  | none =>
    have hSome : (stage3 imgRing [(8, 0)] imgBright).isSome := by decide
    rw [hEq] at hSome
    exact absurd hSome (by decide)
  | some o =>
    have h := C4_amended_stageC imgRing imgBright o [(8, 0)] (by decide) hEq 8 0
      (by decide)
    simp only [Option.map_some']
    rw [h]
    decide

unseal Rat.mul Rat.inv Rat.add Rat.sub in
/-- Claim C5 (counterexample).  Stage C's samples are not drawn from Stage
B's output: on `imgBuf` the source (sampling the Stage-A buffer) rewrites
pixel (0,0) to the Stage-A value 100 of pixel (12,0), while a pipeline
whose Stage C samples the Stage-B output finds no dark sample and leaves
(0,0) at 255. -/
theorem C5_counterexample :
    (multi_pass_inpaint weightsOne imgBuf boxBuf).map (fun i => i.pix 0 0) =
        some ⟨100, 100, 100⟩ ∧
      (multi_pass_inpaint_specC5 weightsOne imgBuf boxBuf).map (fun i => i.pix 0 0) =
        some ⟨255, 255, 255⟩ := by
  refine ⟨?_, ?_⟩
  · decide
  · decide

/-- Claim C5 (amended).  Stage B samples the frozen Stage-A output and
Stage C samples that same frozen Stage-A buffer (its brightness trigger
reads the pixel's own live Stage-B value); consequently each pixel's result
is independent of the order in which the candidate pixels are processed:
permuting a duplicate-free candidate list leaves the reconstruction output
unchanged. -/
theorem C5_amended_order_free (wt : Weights) (img : Img) (l l' : List Coord)
    (hperm : List.Perm l l') (hnd : l.Nodup)
    (hsome : (multi_pass_inpaint wt img l).isSome)
    (hsome' : (multi_pass_inpaint wt img l').isSome) :
    multi_pass_inpaint wt img l = multi_pass_inpaint wt img l' := by
  rcases Option.isSome_iff_exists.mp hsome with ⟨out, hout⟩
  rcases Option.isSome_iff_exists.mp hsome' with ⟨out', hout'⟩
  have hmask : ∀ z : Coord, z ∈ build_exclusion img.width img.height l ↔
      z ∈ build_exclusion img.width img.height l' := by
    intro z
    rw [build_exclusion_mem, build_exclusion_mem]
    constructor
    · rintro ⟨a1, a2, c, hc, h7, h10⟩
      exact ⟨a1, a2, c, hperm.mem_iff.mp hc, h7, h10⟩
    · rintro ⟨a1, a2, c, hc, h7, h10⟩
      exact ⟨a1, a2, c, hperm.mem_iff.mpr hc, h7, h10⟩
  have hout2 := hout
  have hout2' := hout'
  unfold multi_pass_inpaint at hout2 hout2'
  rcases Option.bind_eq_some.mp hout2 with ⟨i1, h1, hr1⟩
  rcases Option.bind_eq_some.mp hr1 with ⟨i2, h2, h3⟩
  rcases Option.bind_eq_some.mp hout2' with ⟨i1', h1', hr1'⟩
  rcases Option.bind_eq_some.mp hr1' with ⟨i2', h2', h3'⟩
  have h1f : List.foldlM (stage1Step img (build_exclusion img.width img.height l)) img l =
      some i1 := h1
  have h1f' : List.foldlM (stage1Step img (build_exclusion img.width img.height l')) img l' =
      some i1' := h1'
  have hi1 : i1 = i1' := by
    refine Img.ext' ?_ ?_ ?_
    · rw [(fold_frame (fun a c a' hs => stage1Step_frame hs) l img i1 h1f).1,
        (fold_frame (fun a c a' hs => stage1Step_frame hs) l' img i1' h1f').1]
    · rw [(fold_frame (fun a c a' hs => stage1Step_frame hs) l img i1 h1f).2.1,
        (fold_frame (fun a c a' hs => stage1Step_frame hs) l' img i1' h1f').2.1]
    · intro p q
      rw [stage1_pix img (build_exclusion img.width img.height l) l img i1 h1 p q,
        stage1_pix img (build_exclusion img.width img.height l') l' img i1' h1' p q]
      by_cases hm : ((p, q) : Coord) ∈ l
      · rw [if_pos hm, if_pos (hperm.mem_iff.mp hm), sample_far_congr img p q _ _ hmask]
      · rw [if_neg hm, if_neg fun hm2 => hm (hperm.mem_iff.mpr hm2)]
  rw [← hi1] at h2' h3'
  have h2f : List.foldlM (stage2Step wt i1 l) i1 l = some i2 := h2
  have h2f' : List.foldlM (stage2Step wt i1 l') i1 l' = some i2' := h2'
  have hi2 : i2 = i2' := by
    refine Img.ext' ?_ ?_ ?_
    · rw [(fold_frame (fun a c a' hs => stage2Step_frame hs) l i1 i2 h2f).1,
        (fold_frame (fun a c a' hs => stage2Step_frame hs) l' i1 i2' h2f').1]
    · rw [(fold_frame (fun a c a' hs => stage2Step_frame hs) l i1 i2 h2f).2.1,
        (fold_frame (fun a c a' hs => stage2Step_frame hs) l' i1 i2' h2f').2.1]
    · intro p q
      rw [stage2_pix wt i1 l l i1 i2 h2 p q, stage2_pix wt i1 l' l' i1 i2' h2' p q]
      by_cases hm : ((p, q) : Coord) ∈ l
      · rw [if_pos hm, if_pos (hperm.mem_iff.mp hm),
          bilateral_core_congr wt i1 p q (i1.pix p q) l l' fun z => hperm.mem_iff]
      · rw [if_neg hm, if_neg fun hm2 => hm (hperm.mem_iff.mpr hm2)]
  rw [← hi2] at h3'
  have hnd' : l'.Nodup := hperm.nodup_iff.mp hnd
  have h3f : List.foldlM (stage3Step i1) i2 l = some out := h3
  have h3f' : List.foldlM (stage3Step i1) i2 l' = some out' := h3'
  have hi3 : out = out' := by
    refine Img.ext' ?_ ?_ ?_
    · rw [(fold_frame (fun a c a' hs => stage3Step_frame hs) l i2 out h3f).1,
        (fold_frame (fun a c a' hs => stage3Step_frame hs) l' i2 out' h3f').1]
    · rw [(fold_frame (fun a c a' hs => stage3Step_frame hs) l i2 out h3f).2.1,
        (fold_frame (fun a c a' hs => stage3Step_frame hs) l' i2 out' h3f').2.1]
    · intro p q
      rw [stage3_pix i1 l hnd i2 out h3 p q, stage3_pix i1 l' hnd' i2 out' h3' p q]
      by_cases hm : ((p, q) : Coord) ∈ l
      · rw [if_pos hm, if_pos (hperm.mem_iff.mp hm)]
      · rw [if_neg hm, if_neg fun hm2 => hm (hperm.mem_iff.mpr hm2)]
  rw [hout, hout', hi3]

/-- Witness for the amended C5 at a concrete reconstruction run. -/
theorem C5_amended_order_free_witness :
    multi_pass_inpaint weightsOne imgBright boxPair =
        multi_pass_inpaint weightsOne imgBright boxPair.reverse ∧
      List.Perm boxPair boxPair.reverse ∧ boxPair.Nodup := by
  refine ⟨C5_amended_order_free weightsOne imgBright boxPair boxPair.reverse
    (List.reverse_perm boxPair).symm (by decide) ?_ ?_,
    (List.reverse_perm boxPair).symm, by decide⟩
  · decide
  · decide

/-- Claim C6 (counterexample).  Stage A's rays scan distances 12 through 24
(`for dist in 12..25`), not out to distance 25: on `imgRay` the only
acceptable sample lies exactly at distance 25 in direction (1,0), the
source finds nothing, while the claimed scan to distance 25 returns it. -/
theorem C6_counterexample :
    sample_far_neighbors imgRay 0 0 [] = none ∧
      sample_far_spec imgRay 0 0 [] rayDists25 = some ⟨100, 100, 100⟩ := by
  refine ⟨?_, ?_⟩
  · decide
  · decide

/-- Claim C6 (amended).  Stage A: for every candidate pixel of the iterated
list, the output pixel is the spec-worded ray result over distances 12
through 24 — the first in-bounds, unmasked, all-channels-dark pixel per
compass direction; at least 4 samples give the per-channel median, 1 to 3
the per-channel mean, and with no samples (or for non-candidates) the pixel
is left unchanged by this stage. -/
theorem C6_amended_stageA (original : Img) (mask : List Coord) (l : List Coord)
    (img out : Img) (h : stage1 original mask l img = some out) (x y : Nat) :
    out.pix x y =
      match (if (x, y) ∈ l then sample_far_spec original x y mask rayDists else none) with
      | some col => col
      | none => img.pix x y := by
  rw [stage1_pix original mask l img out h x y, sample_far_eq_spec]

/-- Witness for the amended C6 at a concrete Stage-A run. -/
theorem C6_amended_stageA_witness :
    (stage1 imgRay [] [(0, 0)] imgRay).map (fun i => i.pix 0 0) =
      some ⟨255, 255, 255⟩ := by
  cases hEq : stage1 imgRay [] [(0, 0)] imgRay with
  | none =>
    have hSome : (stage1 imgRay [] [(0, 0)] imgRay).isSome := by decide
    rw [hEq] at hSome
    exact absurd hSome (by decide)
  | some o =>
    have h := C6_amended_stageA imgRay [] [(0, 0)] imgRay o hEq 0 0
    simp only [Option.map_some']
    rw [h]
    decide

/-- Claim C7 (confirmed).  The exclusion mask contains exactly the
in-bounds pixels (nx, ny) for which some candidate (x, y) satisfies
|nx - x| <= 7 and |ny - y| <= 10; `build_exclusion` takes only the raster
dimensions and the candidate coordinates, never pixel values. -/
theorem C7_exclusion_mask (w h : Nat) (l : List Coord) (nx ny : Nat) :
    ((nx, ny) : Coord) ∈ build_exclusion w h l ↔
      nx < w ∧ ny < h ∧ ∃ c ∈ l, ((nx : Int) - c.1).natAbs ≤ 7 ∧
        ((ny : Int) - c.2).natAbs ≤ 10 :=
  build_exclusion_mem w h l (nx, ny)

/-- Claim C8 (confirmed).  On a well-formed raster none of whose
search-region pixels (left 30 percent of the width, bottom 40 percent of
the height) is brighter than 235 on all three channels, detection returns
the empty set under any snapshot iteration orders — the six expansion
passes contribute nothing — and the pipeline returns the input raster
itself. -/
theorem C8_clean_noop (wt : Weights) (o : Orders) (img : Img) (hL : Orders.Lawful o)
    (hw : 0 < img.width) (hh : 0 < img.height) (hw32 : img.width < 4294967296)
    (hh32 : img.height < 4294967296)
    (hc : ∀ x y : Nat, x < maxX img.width → minY img.height ≤ y → y < img.height →
      ¬(235 < (img.pix x y).r ∧ 235 < (img.pix x y).g ∧ 235 < (img.pix x y).b)) :
    detect_autofocus_box img o = some [] ∧ remove_autofocus_boxes wt o img = some img := by
  have hd := detect_clean hL hw hh hw32 hh32 hc
  refine ⟨hd, ?_⟩
  unfold remove_autofocus_boxes
  rw [hd]
  rfl

/-- Witness for C8 on the uniform gray 5x5 raster. -/
theorem C8_clean_noop_witness :
    detect_autofocus_box imgGray ordersId = some [] ∧
      remove_autofocus_boxes weightsOne ordersId imgGray = some imgGray :=
  C8_clean_noop weightsOne ordersId imgGray ordersId_lawful (by decide) (by decide)
    (by decide) (by decide) fun x y _ _ _ => by
      change ¬(235 < 128 ∧ 235 < 128 ∧ 235 < 128)
      decide

/-- Claim C9 (confirmed).  Every coordinate in the candidate set returned
by detection lies strictly inside the raster bounds, for any lawful
snapshot iteration orders, so reconstruction's reads and writes at
candidate coordinates are in bounds. -/
theorem C9_candidates_in_bounds (img : Img) (o : Orders) (l : List Coord)
    (hL : Orders.Lawful o) (h : detect_autofocus_box img o = some l) :
    ∀ c ∈ l, c.1 < img.width ∧ c.2 < img.height :=
  detect_inb hL h

/-- Witness for C9 on a raster with one bright search-region pixel. -/
theorem C9_candidates_in_bounds_witness :
    (1 : Nat) < imgSpot.width ∧ (8 : Nat) < imgSpot.height :=
  C9_candidates_in_bounds imgSpot ordersId [(1, 8)] ordersId_lawful (by decide) (1, 8)
    (by decide)

/-- Claim C10 (confirmed).  The non-Linux build of `remove_autofocus_boxes`
returns a clone of its input: it is the identity on rasters, performing no
detection or reconstruction. -/
theorem C10_non_linux_identity (img : Img) : remove_autofocus_boxes_non_linux img = img :=
  rfl

end AFB
